import Mathlib

/-!
Verification of the local code-search engine (`app/code_search.py`) of the
`mcp_servers` repository: keyword / snippet / regex search with context
windows, bounded-result traversal, and the depth-bounded structure builder.

Python text values are embedded as `List Char`; file systems as an inductive
tree whose files carry either decoded text or a read error (the two error
classes the source catches: `UnicodeDecodeError`, `PermissionError`).
Machine-independent Python semantics (str.rstrip, str.split, '\n'.join,
str.rfind, os.path.splitext, re finditer over `re.escape`d literals) are
reproduced as executable functions.  `re.IGNORECASE` is modelled as
ASCII `toLower`-equality of characters.
-/

namespace CodeSearch

/-- Python strings as explicit character lists. -/
abbrev PyStr := List Char

deriving instance DecidableEq for Except

/-- Character comparison under the case-sensitivity flag: exact equality when
case-sensitive, `re.IGNORECASE` (modelled via `Char.toLower`) otherwise. -/
def charEq (case_sensitive : Bool) (a b : Char) : Bool :=
  if case_sensitive then a == b else a.toLower == b.toLower

/-- Does the literal pattern `kw` match at the head of `t` (charwise, under
the case flag)? -/
def matchesHere (cs : Bool) : PyStr → PyStr → Bool
  | [], _ => true
  | _ :: _, [] => false
  | a :: as, b :: bs => charEq cs a b && matchesHere cs as bs

/-- Does the literal pattern `kw` match in `s` at position `pos`? -/
def matchesAt (cs : Bool) (s kw : PyStr) (pos : Nat) : Bool :=
  matchesHere cs kw (s.drop pos)

/-- Scanning loop of `re.finditer` for a literal (`re.escape`d) pattern:
non-overlapping, left to right; after an empty match the scan advances one
position (CPython semantics).  `fuel` is a structural termination counter;
with `fuel + pos ≥ s.length + 1` it never runs out before the scan ends. -/
def litFinditerAux (cs : Bool) (s kw : PyStr) : Nat → Nat → List (Nat × Nat)
  | _, 0 => []
  | pos, fuel + 1 =>
    if pos ≤ s.length then
      if matchesAt cs s kw pos then
        (pos, pos + kw.length) :: litFinditerAux cs s kw (pos + max 1 kw.length) fuel
      else
        litFinditerAux cs s kw (pos + 1) fuel
    else []

/-- All matches (as half-open index spans) of the literal `kw` in `s`:
`re.compile(re.escape(kw), flags).finditer(s)`. -/
def litFinditer (cs : Bool) (kw s : PyStr) : List (Nat × Nat) :=
  litFinditerAux cs s kw 0 (s.length + 1)

/-- Python `f.readlines()` on decoded content: split into lines, each line
keeping its trailing newline (the last line may lack one). -/
def readlines : PyStr → List PyStr
  | [] => []
  | c :: cs =>
    if c = '\n' then [c] :: readlines cs
    else
      match readlines cs with
      | [] => [[c]]
      | l :: ls => (c :: l) :: ls

/-- Python `content.split('\n')`: separators removed, always nonempty. -/
def splitNl : PyStr → List PyStr
  | [] => [[]]
  | c :: cs =>
    if c = '\n' then [] :: splitNl cs
    else
      match splitNl cs with
      | [] => [[c]]
      | l :: ls => (c :: l) :: ls

/-- Python `'\n'.join(ls)`. -/
def joinNl : List PyStr → PyStr
  | [] => []
  | [l] => l
  | l :: ls => l ++ '\n' :: joinNl ls

/-- Python whitespace characters stripped by `str.rstrip()` (ASCII range). -/
def pyIsSpace (c : Char) : Bool :=
  c == ' ' || c == '\t' || c == '\n' || c == '\r' || c == '\x0b' || c == '\x0c'

/-- Python `s.rstrip()`. -/
def pyRstrip (s : PyStr) : PyStr :=
  (s.reverse.dropWhile pyIsSpace).reverse

/-- Index of the last occurrence of `c` in `s`; `none` models Python
`s.rfind(c) == -1`. -/
def rfindIdx (c : Char) : PyStr → Option Nat
  | [] => none
  | a :: as =>
    match rfindIdx c as with
    | some i => some (i + 1)
    | none => if a = c then some 0 else none

/-- Python `range(a, b)` over naturals. -/
def pyRange (a b : Nat) : List Nat :=
  List.range' a (b - a)

/-- Python `s[a:b]` for `0 ≤ a ≤ b` (the only shape the source uses). -/
def pySlice (s : PyStr) (a b : Nat) : PyStr :=
  (s.drop a).take (b - a)

/-- Python `enumerate(l, n)`. -/
def enumFrom (n : Nat) : List α → List (Nat × α)
  | [] => []
  | a :: as => (n, a) :: enumFrom (n + 1) as

/-- Number of newline characters in `s` (Python `s.count('\n')`). -/
def countNl (s : PyStr) : Nat :=
  s.count '\n'

/- ## Data model: search results (`code_search.py` result dictionaries) -/

/-- One context line: `\x7b"line_num": i + 1, "content": ...\x7d`. -/
structure ContextLine where
  line_num : Nat
  content : PyStr
deriving DecidableEq, Repr, Inhabited

/-- The matched line entry of a context window (`"match"` key).  `mtch` field
of `Context` below uses this; offsets are line-relative per the source. -/
structure MatchLine where
  line_num : Nat
  content : PyStr
  start_pos : Nat
  end_pos : Nat
deriving DecidableEq, Repr, Inhabited

/-- A context window: pre lines, the match line entry, post lines. -/
structure Context where
  pre : List ContextLine
  mtch : MatchLine
  post : List ContextLine
deriving DecidableEq, Repr, Inhabited

/-- One search result dictionary. -/
structure MatchResult where
  file_path : String
  line_num : Nat
  match_text : PyStr
  context : Context
deriving DecidableEq, Repr, Inhabited

/- ## File-type classifier -/

/-- The `supported_file_types` table of `CodeSearcher.__init__`. -/
def supported_file_types : List (String × List String) :=
  [("python", [".py"]),
   ("javascript", [".js", ".jsx"]),
   ("typescript", [".ts", ".tsx"]),
   ("java", [".java"]),
   ("csharp", [".cs"]),
   ("cpp", [".cpp", ".h", ".hpp"]),
   ("go", [".go"]),
   ("rust", [".rs"]),
   ("html", [".html"]),
   ("css", [".css"]),
   ("markdown", [".md"]),
   ("json", [".json"]),
   ("yaml", [".yaml", ".yml"]),
   ("xml", [".xml"])]

/-- `CodeSearcher._get_file_extensions`: dictionary lookup with `[]` default. -/
def get_file_extensions (file_type : String) : List String :=
  (((supported_file_types.find? (fun p => p.1 == file_type.toLower)).map Prod.snd).getD [])

/-- Extension part of `os.path.splitext` (posix): the suffix from the last dot
of the basename, empty unless some character strictly between the last `/` and
that dot is not a dot (CPython `genericpath._splitext`). -/
def splitextExt (p : PyStr) : PyStr :=
  match rfindIdx '.' p with
  | none => []
  | some dotIndex =>
    let sepHit := rfindIdx '/' p
    let sepOk : Bool := match sepHit with
      | none => true
      | some sepIndex => sepIndex < dotIndex
    if sepOk then
      let filenameIndex := match sepHit with
        | none => 0
        | some sepIndex => sepIndex + 1
      if (pyRange filenameIndex dotIndex).any (fun i => ¬ (p.getD i ' ' = '.')) then
        p.drop dotIndex
      else []
    else []

/-- `CodeSearcher._is_file_type_matched`. -/
def is_file_type_matched (file_path : String) (file_types : List String) : Bool :=
  if file_types.isEmpty then true
  else
    let file_ext := (String.mk (splitextExt file_path.data)).toLower
    file_types.any (fun ft => (get_file_extensions ft).contains file_ext)

/- ## Filesystem model and `os.walk` -/

/-- Errors `open(...).read()` can raise that the source catches per file. -/
inductive ReadError where
  | unicodeDecodeError
  | permissionError
deriving DecidableEq, Repr

/-- A filesystem entry: a file (with the outcome of opening and decoding it,
plus its stat size) or a directory with its listing. -/
inductive FSEntry where
  | file (name : String) (data : Except ReadError PyStr) (size : Nat)
  | dir (name : String) (entries : List FSEntry)

/-- Posix `os.path.join`. -/
def pjoin (a b : String) : String := a ++ "/" ++ b

/-- The regular files directly inside a directory listing, in order, with
their joined paths and read outcomes. -/
def dirFiles (path : String) : List FSEntry → List (String × Except ReadError PyStr)
  | [] => []
  | .file n d _ :: rest => (pjoin path n, d) :: dirFiles path rest
  | .dir _ _ :: rest => dirFiles path rest

/-- Descent part of `os.walk` (top-down): for each subdirectory, its direct
files first, then its own descent. -/
def walkList (path : String) : List FSEntry → List (String × Except ReadError PyStr)
  | [] => []
  | .file _ _ _ :: rest => walkList path rest
  | .dir n es :: rest =>
    (dirFiles (pjoin path n) es ++ walkList (pjoin path n) es) ++ walkList path rest

/-- The sequence of files produced by `for root, _, files in os.walk(directory)`.
A missing root (`none`) or a non-directory root yields nothing: `os.walk`
swallows the error and produces no tuples. -/
def osWalkFiles (directory : String) : Option FSEntry → List (String × Except ReadError PyStr)
  | none => []
  | some (.file _ _ _) => []
  | some (.dir _ es) => dirFiles directory es ++ walkList directory es

/-- The same tree with every unreadable file (read outcome an error) removed;
used to state that per-file failures only drop those files' matches. -/
def pruneList : List FSEntry → List FSEntry
  | [] => []
  | .file _ (.error _) _ :: rest => pruneList rest
  | .file n (.ok c) sz :: rest => .file n (.ok c) sz :: pruneList rest
  | .dir n es :: rest => .dir n (pruneList es) :: pruneList rest

/-- Root-level pruning of unreadable files. -/
def pruneUnreadable : FSEntry → FSEntry
  | .file n d sz => .file n d sz
  | .dir n es => .dir n (pruneList es)

/- ## `search_in_file` (keyword mode, lines 80-139) -/

/-- The context dictionary built for a keyword match on line `line_num`
(1-based) of `lines`, with match span `s, e` (source lines 111-130). -/
def keywordContext (lines : List PyStr) (line : PyStr) (line_num : Nat)
    (snippet_context : Nat) (s e : Nat) : Context :=
  let start_line := max 0 (line_num - snippet_context - 1)
  let end_line := min lines.length (line_num + snippet_context)
  { pre := (pyRange start_line (line_num - 1)).map
      (fun i => { line_num := i + 1, content := pyRstrip (lines.getD i []) })
    mtch := { line_num := line_num, content := pyRstrip line,
              start_pos := s, end_pos := e }
    post := (pyRange line_num end_line).map
      (fun i => { line_num := i + 1, content := pyRstrip (lines.getD i []) }) }

/-- `CodeSearcher.search_in_file`: on a read error the file is skipped with a
logged diagnostic and `[]` is returned (lines 95-100); otherwise every literal
occurrence of the keyword on every line yields one result. -/
def search_in_file (file_path : String) (fileData : Except ReadError PyStr)
    (keyword : PyStr) (case_sensitive : Bool) (snippet_context : Nat) :
    List MatchResult :=
  match fileData with
  | .error _ => []
  | .ok content =>
    let lines := readlines content
    (enumFrom 1 lines).flatMap (fun p =>
      (litFinditer case_sensitive keyword p.2).map (fun m =>
        { file_path := file_path
          line_num := p.1
          match_text := pySlice p.2 m.1 m.2
          context := keywordContext lines p.2 p.1 snippet_context m.1 m.2 }))

/- ## `search_in_directory` (lines 141-177) -/

/-- Accumulating loop of `search_in_directory` over the `os.walk` file
sequence: per file, filter by type, extend the shared result list, and return
`results[:max_results]` the moment the count reaches `max_results`. -/
def search_in_directory_go (keyword : PyStr) (file_types : List String)
    (case_sensitive : Bool) (snippet_context max_results : Nat) :
    List (String × Except ReadError PyStr) → List MatchResult → List MatchResult
  | [], results => results
  | (fp, d) :: rest, results =>
    if ¬ is_file_type_matched fp file_types then
      search_in_directory_go keyword file_types case_sensitive snippet_context max_results rest results
    else
      let results' := results ++ search_in_file fp d keyword case_sensitive snippet_context
      if max_results ≤ results'.length then results'.take max_results
      else search_in_directory_go keyword file_types case_sensitive snippet_context max_results rest results'

/-- `CodeSearcher.search_in_directory`.  The root is `none` when the directory
does not exist (then `os.walk` yields nothing). -/
def search_in_directory (directory : String) (root : Option FSEntry)
    (keyword : PyStr) (file_types : List String) (case_sensitive : Bool)
    (snippet_context max_results : Nat) : List MatchResult :=
  search_in_directory_go keyword file_types case_sensitive snippet_context max_results
    (osWalkFiles directory root) []

/- ## `search_code_snippet` (multi-line literal mode, lines 179-261) -/

/-- The match-line entry built for a snippet match at content span `s, e`
(source lines 238-243): line number counts newlines before the match start;
content joins the lines from the starting line through
`snippet.count('\n')` further lines; offsets subtract the nearest newline
before the match start (Python `rfind` returning `-1` when absent). -/
def snippetMatchLine (content snippet : PyStr) (s e : Nat) : MatchLine :=
  let line_num := countNl (content.take s) + 1
  let lines := splitNl content
  { line_num := line_num
    content := joinNl ((lines.drop (line_num - 1)).take (countNl snippet + 1))
    start_pos := match rfindIdx '\n' (content.take s) with
      | none => s
      | some i => s - i - 1
    end_pos := match rfindIdx '\n' (content.take s) with
      | none => e
      | some i => e - i - 1 }

/-- The full context dictionary for a snippet match (source lines 228-248);
pre/post lines come from `content.split('\n')`, unstripped, and the post
window starts after the last line the snippet spans. -/
def snippetContext (content snippet : PyStr) (snippet_context : Nat)
    (s e : Nat) : Context :=
  let line_num := countNl (content.take s) + 1
  let lines := splitNl content
  let start_line := max 0 (line_num - snippet_context - 1)
  let end_line := min lines.length (line_num + snippet_context)
  { pre := (pyRange start_line (line_num - 1)).map
      (fun i => { line_num := i + 1, content := lines.getD i [] })
    mtch := snippetMatchLine content snippet s e
    post := (pyRange (line_num + countNl snippet) end_line).map
      (fun i => { line_num := i + 1, content := lines.getD i [] }) }

/-- The result list one readable file contributes in snippet mode. -/
def snippet_file_matches (fp : String) (content snippet : PyStr)
    (case_sensitive : Bool) (snippet_context : Nat) : List MatchResult :=
  (litFinditer case_sensitive snippet content).map (fun m =>
    { file_path := fp
      line_num := countNl (content.take m.1) + 1
      match_text := pySlice content m.1 m.2
      context := snippetContext content snippet snippet_context m.1 m.2 })

/-- The inner `for match in matches` loop shared by snippet and regex modes:
append results one by one, returning `(results[:max_results], true)` the
moment the count reaches `max_results` (the `true` flag is the early return
that aborts the whole directory traversal). -/
def capAppend (max_results : Nat) :
    List MatchResult → List MatchResult → List MatchResult × Bool
  | results, [] => (results, false)
  | results, r :: rest =>
    let results' := results ++ [r]
    if max_results ≤ results'.length then (results'.take max_results, true)
    else capAppend max_results results' rest

/-- Traversal loop of `search_code_snippet`: type filter, per-file read with
skip-and-continue on error (lines 214-219), then the capped match loop. -/
def search_code_snippet_go (snippet : PyStr) (file_types : List String)
    (case_sensitive : Bool) (snippet_context max_results : Nat) :
    List (String × Except ReadError PyStr) → List MatchResult → List MatchResult
  | [], results => results
  | (fp, d) :: rest, results =>
    if ¬ is_file_type_matched fp file_types then
      search_code_snippet_go snippet file_types case_sensitive snippet_context max_results rest results
    else
      match d with
      | .error _ =>
        search_code_snippet_go snippet file_types case_sensitive snippet_context max_results rest results
      | .ok content =>
        match capAppend max_results results
            (snippet_file_matches fp content snippet case_sensitive snippet_context) with
        | (results', true) => results'
        | (results', false) =>
          search_code_snippet_go snippet file_types case_sensitive snippet_context max_results rest results'

/-- `CodeSearcher.search_code_snippet`. -/
def search_code_snippet (directory : String) (root : Option FSEntry)
    (snippet : PyStr) (file_types : List String) (case_sensitive : Bool)
    (snippet_context max_results : Nat) : List MatchResult :=
  search_code_snippet_go snippet file_types case_sensitive snippet_context max_results
    (osWalkFiles directory root) []

/- ## `search_by_regex` (lines 309-389) -/

/-- `re.error`: the pattern did not compile. -/
inductive RegexError where
  | invalidPattern

/-- A compiled pattern, abstracted as its `finditer` span function over a
content buffer (non-overlapping spans, in order). -/
abbrev Matcher := PyStr → List (Nat × Nat)

/-- The runtime exception the regex path can raise and does not catch: the
pre-context list comprehension indexes `lines[i]` out of range (the per-file
`except` clause at lines 345-347 covers only `UnicodeDecodeError` and
`PermissionError`, and nothing outer catches an `IndexError`). -/
inductive PyExc where
  | indexError
deriving DecidableEq, Repr

/-- Python `lines[i]` on a list, for a non-negative index: the element, or an
`IndexError`. -/
def pyListGet (l : List PyStr) (i : Nat) : Except PyExc PyStr :=
  if h : i < l.length then .ok (l.get ⟨i, h⟩) else .error .indexError

/-- Left-to-right effectful map: a Python list comprehension whose body may
raise, stopping at the first exception. -/
def mapExcept {α β : Type} (f : α → Except PyExc β) : List α → Except PyExc (List β)
  | [] => .ok []
  | a :: as =>
    match f a with
    | .error exc => .error exc
    | .ok b =>
      match mapExcept f as with
      | .error exc => .error exc
      | .ok bs => .ok (b :: bs)

/-- The context dictionary for a regex match (source lines 357-376): the line
number and line-relative offsets are computed over `content` (which the
source builds as `'\n'.join(f.readlines())`), while pre/post context lines
index the `readlines` list (`lines[i].rstrip()`) — raising an uncaught
`IndexError` when `line_num` computed over the doubled-newline buffer drives
an index past `len(lines)`; the match-line content is the matched substring
rstripped. -/
def regexContext (fileLines : List PyStr) (content : PyStr)
    (snippet_context : Nat) (s e : Nat) : Except PyExc Context :=
  let line_num := countNl (content.take s) + 1
  let start_line := max 0 (line_num - snippet_context - 1)
  let end_line := min fileLines.length (line_num + snippet_context)
  match mapExcept (fun i =>
      match pyListGet fileLines i with
      | .error exc => .error exc
      | .ok line => .ok { line_num := i + 1, content := pyRstrip line })
    (pyRange start_line (line_num - 1)) with
  | .error exc => .error exc
  | .ok pre =>
    match mapExcept (fun i =>
        match pyListGet fileLines i with
        | .error exc => .error exc
        | .ok line => .ok { line_num := i + 1, content := pyRstrip line })
      (pyRange line_num end_line) with
    | .error exc => .error exc
    | .ok post =>
      .ok { pre := pre
            mtch := { line_num := line_num
                      content := pyRstrip (pySlice content s e)
                      start_pos := match rfindIdx '\n' (content.take s) with
                        | none => s
                        | some i => s - i - 1
                      end_pos := match rfindIdx '\n' (content.take s) with
                        | none => e
                        | some i => e - i - 1 }
            post := post }

/-- The result dictionary appended for one regex match (source lines 378-383). -/
def regexResult (fp : String) (content : PyStr) (ctx : Context) (s e : Nat) :
    MatchResult :=
  { file_path := fp
    line_num := countNl (content.take s) + 1
    match_text := pySlice content s e
    context := ctx }

/-- The `for match in matches` loop of `search_by_regex` over one file's
match spans: build the context (which may raise), append the result, and
return `(results[:max_results], true)` the moment the count reaches
`max_results` — so a later match whose context would raise is never reached
once the cap fires, and a raise aborts the whole call. -/
def regexMatchLoop (fp : String) (fileLines : List PyStr) (content : PyStr)
    (snippet_context max_results : Nat) :
    List MatchResult → List (Nat × Nat) → Except PyExc (List MatchResult × Bool)
  | results, [] => .ok (results, false)
  | results, m :: rest =>
    match regexContext fileLines content snippet_context m.1 m.2 with
    | .error exc => .error exc
    | .ok ctx =>
      if max_results ≤ (results ++ [regexResult fp content ctx m.1 m.2]).length then
        .ok ((results ++ [regexResult fp content ctx m.1 m.2]).take max_results, true)
      else
        regexMatchLoop fp fileLines content snippet_context max_results
          (results ++ [regexResult fp content ctx m.1 m.2]) rest

/-- Traversal loop of `search_by_regex`: per file, filter by type, read with
`readlines` (skip-and-continue on the two caught read errors), scan
`'\n'.join(lines)`, and run the per-match loop; an uncaught `IndexError`
from a context window propagates out of the whole call. -/
def search_by_regex_go (matcher : Matcher) (file_types : List String)
    (snippet_context max_results : Nat) :
    List (String × Except ReadError PyStr) → List MatchResult →
    Except PyExc (List MatchResult)
  | [], results => .ok results
  | (fp, d) :: rest, results =>
    if ¬ is_file_type_matched fp file_types then
      search_by_regex_go matcher file_types snippet_context max_results rest results
    else
      match d with
      | .error _ =>
        search_by_regex_go matcher file_types snippet_context max_results rest results
      | .ok content =>
        match regexMatchLoop fp (readlines content) (joinNl (readlines content))
            snippet_context max_results results
            (matcher (joinNl (readlines content))) with
        | .error exc => .error exc
        | .ok (results', true) => .ok results'
        | .ok (results', false) =>
          search_by_regex_go matcher file_types snippet_context max_results rest results'

/-- `CodeSearcher.search_by_regex`.  The `compiled` argument is the outcome of
`re.compile(regex_pattern, re.DOTALL | re.MULTILINE)`; on `re.error` the
source logs the failure and returns the empty list (lines 327-331) — no
exception.  A successful call returns `.ok` of its result list; an
`IndexError` raised while building a context window aborts the call
(`.error`). -/
def search_by_regex (directory : String) (root : Option FSEntry)
    (compiled : Except RegexError Matcher) (file_types : List String)
    (snippet_context max_results : Nat) : Except PyExc (List MatchResult) :=
  match compiled with
  | .error _ => .ok []
  | .ok matcher =>
    search_by_regex_go matcher file_types snippet_context max_results
      (osWalkFiles directory root) []

/- ## `get_file_structure` (lines 263-307) -/

/-- A structure node: the `"directory"`/`"file"` tagged dictionaries. -/
inductive Structure where
  | dir (name : String) (children : List Structure)
  | file (name : String) (size : Nat)

/-- Name of a listing entry, for `sorted(os.listdir(...))`. -/
def entryName : FSEntry → String
  | .file n _ _ => n
  | .dir n _ => n

/-- Python string comparison (`a <= b` by code points, lexicographic). -/
def pyCharsLe : List Char → List Char → Bool
  | [], _ => true
  | _ :: _, [] => false
  | a :: as, b :: bs =>
    if a.toNat < b.toNat then true
    else if b.toNat < a.toNat then false
    else pyCharsLe as bs

/-- Python `a <= b` on strings. -/
def pyStrLe (a b : String) : Bool := pyCharsLe a.data b.data

/-- Insertion step of name-sorting a listing. -/
def insertByName (e : FSEntry) : List FSEntry → List FSEntry
  | [] => [e]
  | x :: xs =>
    if pyStrLe (entryName e) (entryName x) then e :: x :: xs
    else x :: insertByName e xs

/-- `sorted(os.listdir(current_dir))` on a modelled listing. -/
def sortByName : List FSEntry → List FSEntry
  | [] => []
  | e :: es => insertByName e (sortByName es)

/-- The recursive `_build_structure` helper.  It returns a childless node as
soon as `current_depth > max_depth`; otherwise it lists the sorted entries,
recursing into subdirectories with depth + 1 and keeping files that pass the
type filter.  `fuel` is a structural termination counter; since every
recursive call increases the depth, `fuel = max_depth + 1 - current_depth`
(as used by `get_file_structure`) makes fuel exhaustion coincide with the
depth guard. -/
def build_structure (file_types : List String) (max_depth : Nat) :
    Nat → String → String → List FSEntry → Nat → Structure
  | 0, _, name, _, _ => Structure.dir name []
  | fuel + 1, current_dir, name, entries, current_depth =>
    if max_depth < current_depth then Structure.dir name []
    else
      Structure.dir name ((sortByName entries).filterMap (fun item =>
        match item with
        | .dir n es =>
          some (build_structure file_types max_depth fuel (pjoin current_dir n) n es (current_depth + 1))
        | .file n _ sz =>
          if is_file_type_matched (pjoin current_dir n) file_types then
            some (Structure.file n sz)
          else none))

/-- The `OSError`s relevant to `get_file_structure` on a bad root: `os.listdir`
raises `FileNotFoundError` (missing root) or `NotADirectoryError` (file root),
and the source catches only `PermissionError`, so these propagate. -/
inductive PyOSError where
  | fileNotFoundError
  | notADirectoryError

/-- `CodeSearcher.get_file_structure`: `_build_structure(directory, 0)`, with
the uncaught `os.listdir` failure surfaced on a missing or non-directory
root. -/
def get_file_structure (directory : String) (root : Option FSEntry)
    (file_types : List String) (max_depth : Nat) : Except PyOSError Structure :=
  match root with
  | none => .error .fileNotFoundError
  | some (.file _ _ _) => .error .notADirectoryError
  | some (.dir n es) =>
    .ok (build_structure file_types max_depth (max_depth + 1) directory n es 0)

/-- Children of a structure node (files have none). -/
def structureChildren : Structure → List Structure
  | .dir _ cs => cs
  | .file _ _ => []

/-- Check that in a structure rooted at depth `d`, every directory node at
depth strictly beyond `cap` has an empty children list (the precise sense in
which expansion is capped).  Stated over lists of sibling nodes at a common
depth. -/
def noExpandList (cap : Nat) : Nat → List Structure → Bool
  | _, [] => true
  | d, .file _ _ :: rest => noExpandList cap d rest
  | d, .dir _ cs :: rest =>
    (decide (d ≤ cap) || cs.isEmpty) && noExpandList cap (d + 1) cs && noExpandList cap d rest

/- ## Derived quantities and spec-side definitions used by the theorems -/

/-- Total number of keyword matches the traversal would find with no result
cap: the summed per-file result counts over the walked, type-matched files. -/
def keywordTotalMatches (keyword : PyStr) (file_types : List String)
    (case_sensitive : Bool) (snippet_context : Nat)
    (files : List (String × Except ReadError PyStr)) : Nat :=
  (files.map (fun f =>
    if is_file_type_matched f.1 file_types then
      (search_in_file f.1 f.2 keyword case_sensitive snippet_context).length
    else 0)).sum

/-- Total number of snippet matches over the walked, type-matched, readable
files. -/
def snippetTotalMatches (snippet : PyStr) (file_types : List String)
    (case_sensitive : Bool) (snippet_context : Nat)
    (files : List (String × Except ReadError PyStr)) : Nat :=
  (files.map (fun f =>
    if is_file_type_matched f.1 file_types then
      match f.2 with
      | .error _ => 0
      | .ok content =>
        (snippet_file_matches f.1 content snippet case_sensitive snippet_context).length
    else 0)).sum

/-- Total number of regex pattern occurrences (finditer spans over the
joined buffer) across the walked, type-matched, readable files. -/
def regexTotalMatches (matcher : Matcher) (file_types : List String)
    (files : List (String × Except ReadError PyStr)) : Nat :=
  (files.map (fun f =>
    if is_file_type_matched f.1 file_types then
      match f.2 with
      | .error _ => 0
      | .ok content => (matcher (joinNl (readlines content))).length
    else 0)).sum

/-- Did the file open and decode successfully? -/
def readOk (f : String × Except ReadError PyStr) : Bool :=
  match f.2 with
  | .ok _ => true
  | .error _ => false

/-- Spec-side rendering of the lines a content-offset match spans: from the
line containing the match start through the line containing the match end,
where the line containing offset `p` is one plus the number of newline
characters preceding `p`, joined in file order. -/
def linesSpanned (content : PyStr) (s e : Nat) : PyStr :=
  let firstLine := countNl (content.take s) + 1
  let lastLine := countNl (content.take e) + 1
  joinNl (((splitNl content).drop (firstLine - 1)).take (lastLine - firstLine + 1))

/- ## Concrete sample data for witnesses and counterexamples -/

/-- A flat root with two readable two-character files, four keyword matches
for `"x"` in total. -/
def exC1tree : FSEntry :=
  .dir "r" [.file "a" (.ok ['x', 'x']) 2, .file "b" (.ok ['x', 'x']) 2]

/-- A one-file root on which a regex search crashes: the match sits on the
last line of a three-line file, so the doubled-newline buffer puts
`line_num` at 5 and the pre-context window indexes `lines[3]` of a 3-line
list. -/
def exC1crashTree : FSEntry :=
  .dir "r" [.file "f" (.ok ['a', '\n', 'b', '\n', 'c', '\n']) 6]

/-- A one-file root on which a regex search succeeds and hits the cap: a
single-line file whose only match needs no out-of-range context lines. -/
def exC1okTree : FSEntry :=
  .dir "r" [.file "g" (.ok ['a', 'b']) 2]

/-- The result list the successful regex search over `exC1okTree` returns. -/
def exC1okResults : List MatchResult :=
  [{ file_path := "/r/g", line_num := 1, match_text := ['a'],
     context := { pre := [],
                  mtch := { line_num := 1, content := ['a'],
                            start_pos := 0, end_pos := 1 },
                  post := [] } }]

/-- A root with one unreadable file and one readable file containing a
match. -/
def exC9tree : FSEntry :=
  .dir "r" [.file "bad" (.error .permissionError) 3,
            .file "good" (.ok ['h', 'i', 't']) 3]

/-- A three-level tree: a file and a directory under the root, a file and a
directory at depth 1, a file at depth 2. -/
def exC8entries : List FSEntry :=
  [.file "f0" (.ok []) 7,
   .dir "d1" [.file "f1" (.ok []) 42, .dir "d2" [.file "f2" (.ok []) 1]]]

/-- What `get_file_structure` returns on `exC8entries` with `max_depth = 1`:
the depth-1 directory `d1` is expanded (its depth-2 children are listed),
and only the depth-2 directory `d2` is cut off. -/
def exC8structure : Structure :=
  .dir "root" [.dir "d1" [.dir "d2" [], .file "f1" 42], .file "f0" 7]

/-- File content `"a\nb\nc\n"` used to witness the context-window claim. -/
def exC4file : PyStr := ['a', '\n', 'b', '\n', 'c', '\n']

/-- The single result of searching `"b"` in `exC4file` with context size 1. -/
def exC4result : MatchResult :=
  (search_in_file "f" (.ok exC4file) ['b'] true 1).headD default

/-- File content `"ab \n"` used for the match-span claim. -/
def exC5file : PyStr := ['a', 'b', ' ', '\n']

/-- The single result of searching `"b"` in `exC5file`: its span lies inside
the rstripped line content. -/
def exC5result : MatchResult :=
  (search_in_file "f" (.ok exC5file) ['b'] true 3).headD default

/- ## Helper lemmas: characters and literal matching -/

theorem toLower_eq_nl {c : Char} (h : c.toLower = '\n') : c = '\n' := by
  unfold Char.toLower at h
  simp only [] at h
  by_cases hr : c.toNat ≥ 65 ∧ c.toNat ≤ 90
  · rw [if_pos hr] at h
    exfalso
    have h2 := congrArg Char.toNat h
    rw [Char.ofNat, dif_pos (Or.inl (by omega))] at h2
    have h3 : ('\n').toNat = 10 := by decide
    simp only [Char.ofNatAux, Char.toNat, UInt32.toNat, BitVec.toNat_ofNatLt] at h2 h3
    omega
  · rwa [if_neg hr] at h

theorem charEq_nl {cs : Bool} {a b : Char} (h : charEq cs a b = true) :
    a = '\n' ↔ b = '\n' := by
  unfold charEq at h
  cases cs with
  | true =>
    simp only [if_pos] at h
    rw [beq_iff_eq] at h
    subst h; exact Iff.rfl
  | false =>
    simp only [if_neg, Bool.false_eq_true, not_false_iff] at h
    rw [beq_iff_eq] at h
    constructor
    · intro ha; subst ha
      exact toLower_eq_nl (by rw [← h]; decide)
    · intro hb; subst hb
      exact toLower_eq_nl (by rw [h]; decide)

theorem matchesHere_length {cs : Bool} :
    ∀ {kw t : PyStr}, matchesHere cs kw t = true → kw.length ≤ t.length := by
  intro kw
  induction kw with
  | nil => intro t _; simp
  | cons a as ih =>
    intro t h
    cases t with
    | nil => simp [matchesHere] at h
    | cons b bs =>
      simp only [matchesHere, Bool.and_eq_true] at h
      simpa using ih h.2

theorem matchesHere_countNl {cs : Bool} :
    ∀ {kw t : PyStr}, matchesHere cs kw t = true →
      countNl (t.take kw.length) = countNl kw := by
  intro kw
  induction kw with
  | nil => intro t _; simp [countNl]
  | cons a as ih =>
    intro t h
    cases t with
    | nil => simp [matchesHere] at h
    | cons b bs =>
      simp only [matchesHere, Bool.and_eq_true] at h
      have hnl := charEq_nl h.1
      have ih2 := ih h.2
      simp only [List.length_cons, List.take_succ_cons, countNl, List.count_cons] at *
      rw [ih2]
      by_cases hb : b = '\n'
      · rw [if_pos (by simpa using hb), if_pos (by simp [hnl.mpr hb])]
      · rw [if_neg (by simpa using hb), if_neg (by simp; intro ha; exact hb (hnl.mp ha))]

theorem litFinditerAux_mem {cs : Bool} {s kw : PyStr} :
    ∀ {fuel pos : Nat} {p : Nat × Nat}, p ∈ litFinditerAux cs s kw pos fuel →
      p.2 = p.1 + kw.length ∧ p.1 + kw.length ≤ s.length
        ∧ matchesHere cs kw (s.drop p.1) = true := by
  intro fuel
  induction fuel with
  | zero => intro pos p h; simp [litFinditerAux] at h
  | succ n ih =>
    intro pos p h
    unfold litFinditerAux at h
    by_cases hb : pos ≤ s.length
    · rw [if_pos hb] at h
      by_cases hm : matchesAt cs s kw pos
      · rw [if_pos hm] at h
        rcases List.mem_cons.mp h with heq | htail
        · subst heq
          refine ⟨rfl, ?_, hm⟩
          have := @matchesHere_length cs _ _ hm
          simp only [List.length_drop] at this
          omega
        · exact ih htail
      · rw [if_neg hm] at h
        exact ih h
    · rw [if_neg hb] at h
      simp at h

theorem litFinditer_mem {cs : Bool} {kw s : PyStr} {p : Nat × Nat}
    (h : p ∈ litFinditer cs kw s) :
    p.2 = p.1 + kw.length ∧ p.1 + kw.length ≤ s.length
      ∧ matchesHere cs kw (s.drop p.1) = true :=
  litFinditerAux_mem h

theorem litFinditerAux_nil {cs : Bool} {s : PyStr} :
    ∀ {fuel pos : Nat}, s.length + 1 ≤ pos + fuel →
      litFinditerAux cs s [] pos fuel
        = (List.range' pos (s.length + 1 - pos)).map (fun p => (p, p)) := by
  intro fuel
  induction fuel with
  | zero =>
    intro pos h
    have : s.length + 1 - pos = 0 := by omega
    simp [litFinditerAux, this]
  | succ n ih =>
    intro pos h
    unfold litFinditerAux
    by_cases hb : pos ≤ s.length
    · rw [if_pos hb]
      have hm : matchesAt cs s [] pos = true := rfl
      rw [if_pos hm]
      have hlen : s.length + 1 - pos = (s.length - pos) + 1 := by omega
      rw [hlen, List.range'_succ]
      have : pos + max 1 (List.length ([] : PyStr)) = pos + 1 := by simp
      rw [this, ih (by omega)]
      have : s.length + 1 - (pos + 1) = s.length - pos := by omega
      simp [this]
    · rw [if_neg hb]
      have : s.length + 1 - pos = 0 := by omega
      simp [this]

theorem litFinditer_nil {cs : Bool} {s : PyStr} :
    litFinditer cs [] s = (List.range (s.length + 1)).map (fun p => (p, p)) := by
  unfold litFinditer
  rw [litFinditerAux_nil (by omega), List.range_eq_range']
  simp

/- ## Helper lemmas: enumeration and ranges -/

theorem mem_enumFrom {α : Type} :
    ∀ {l : List α} {n : Nat} {p : Nat × α}, p ∈ enumFrom n l →
      n ≤ p.1 ∧ p.1 < n + l.length ∧ l.get? (p.1 - n) = some p.2 := by
  intro l
  induction l with
  | nil => intro n p h; simp [enumFrom] at h
  | cons a as ih =>
    intro n p h
    rcases List.mem_cons.mp h with heq | htail
    · subst heq
      simp
    · obtain ⟨h1, h2, h3⟩ := ih htail
      refine ⟨by omega, by simp; omega, ?_⟩
      have hd : p.1 - n = (p.1 - (n + 1)) + 1 := by omega
      rw [hd]
      simpa using h3

theorem map_range'_shift {β : Type} (f : Nat → β) :
    ∀ (n a : Nat), (List.range' a n).map (fun i => f (i + 1))
      = (List.range' (a + 1) n).map f := by
  intro n
  induction n with
  | zero => intro a; rfl
  | succ m ih =>
    intro a
    rw [List.range'_succ, List.range'_succ]
    simp only [List.map_cons, ih (a + 1)]

/- ## Claim C2 (corrected): invalid regex patterns do not raise -/

/-- Claim C2, counterexample to the claim as stated: on a pattern that fails
to compile (`re.error`), `search_by_regex` does not fail the call with an
`InvalidPattern` error; it catches the exception, logs it, and returns the
ordinary empty result list — even over a root whose files contain matches —
which is exactly the value an ordinary no-match search returns. -/
theorem claim_C2_counterexample :
    search_by_regex "/r" (some (.dir "r" [.file "a.py" (.ok ['x']) 1]))
        (.error .invalidPattern) [] 3 100 = .ok ([] : List MatchResult)
  ∧ search_by_regex "/r" none (.ok (litFinditer true ['z'])) [] 3 100
      = .ok ([] : List MatchResult) := by
  exact ⟨rfl, rfl⟩

/-- Claim C2, amended: for every pattern string that does not compile,
`search_by_regex` returns the empty result list to the caller (no exception
propagates, no partial results are produced, and the value is
indistinguishable from an ordinary empty result). -/
theorem claim_C2_amended (directory : String) (root : Option FSEntry)
    (err : RegexError) (file_types : List String)
    (snippet_context max_results : Nat) :
    search_by_regex directory root (.error err) file_types snippet_context max_results
      = .ok ([] : List MatchResult) := rfl

/- ## Claim C3 (corrected): missing root directory -/

/-- Claim C3, counterexample to the claim as stated: a keyword search whose
root directory does not exist (`os.walk` yields nothing) silently returns the
empty result list rather than surfacing an error; snippet and regex search
behave the same way. -/
theorem claim_C3_counterexample :
    search_in_directory "/missing" none ['x'] [] false 3 100 = ([] : List MatchResult)
  ∧ search_code_snippet "/missing" none ['x'] [] false 3 100 = ([] : List MatchResult)
  ∧ search_by_regex "/missing" none (.ok (litFinditer true ['x'])) [] 3 100
      = .ok ([] : List MatchResult) := by
  exact ⟨rfl, rfl, rfl⟩

/-- Claim C3, amended: only the structure build surfaces an error on a
missing root (`os.listdir` raises `FileNotFoundError`, which the source does
not catch); the three search modes silently return the empty result list for
every missing root, because `os.walk` swallows the error and yields no files,
so their callers cannot distinguish no-matches from a bad root. -/
theorem claim_C3_amended (directory : String) (keyword snippet : PyStr)
    (compiled : Except RegexError Matcher) (file_types : List String)
    (case_sensitive : Bool) (snippet_context max_results max_depth : Nat) :
    get_file_structure directory none file_types max_depth
        = .error .fileNotFoundError
  ∧ search_in_directory directory none keyword file_types case_sensitive
        snippet_context max_results = []
  ∧ search_code_snippet directory none snippet file_types case_sensitive
        snippet_context max_results = []
  ∧ search_by_regex directory none compiled file_types
        snippet_context max_results = .ok [] := by
  refine ⟨rfl, rfl, rfl, ?_⟩
  cases compiled with
  | error e => rfl
  | ok m => rfl

/- ## Claim C6 (code bug): regex line numbers are computed over a
doubled-newline buffer -/

/-- Claim C6: the claim is right and the code is wrong.  `search_by_regex`
builds its scan buffer as `'\n'.join(f.readlines())`, but the lines returned
by `readlines()` already end in `'\n'`, so every line break is doubled.  On
the file content `"foo\nbar\n"` the literal pattern `"bar"` (its compiled
matcher is literal search) matches at buffer offset 5 with two newlines
before it, and the reported line number is 3 — while in the file, `"bar"`
starts at offset 4 on line 2 (one preceding newline).  The third conjunct
shows the claim's computation over the true file content gives 2, not 3. -/
theorem claim_C6_code_bug :
    (Except.map (fun p => p.1.map MatchResult.line_num)
        (regexMatchLoop "f" (readlines ['f', 'o', 'o', '\n', 'b', 'a', 'r', '\n'])
          (joinNl (readlines ['f', 'o', 'o', '\n', 'b', 'a', 'r', '\n'])) 3 100 []
          (litFinditer true ['b', 'a', 'r']
            (joinNl (readlines ['f', 'o', 'o', '\n', 'b', 'a', 'r', '\n'])))))
      = .ok [3]
  ∧ pySlice ['f', 'o', 'o', '\n', 'b', 'a', 'r', '\n'] 4 7 = ['b', 'a', 'r']
  ∧ countNl (List.take 4 ['f', 'o', 'o', '\n', 'b', 'a', 'r', '\n']) + 1 = 2 := by
  decide

/- ## Claim C10 (confirmed): the empty keyword is accepted -/

/-- Claim C10: keyword search does not reject the empty keyword: on any
readable file it returns, for every line (as read, trailing newline
included), one result per character position 0 through the line's length,
each with empty match text and equal start and end offsets — rather than no
results or an error. -/
theorem claim_C10 (fp : String) (content : PyStr) (cs : Bool) (k : Nat) :
    search_in_file fp (.ok content) [] cs k
      = (enumFrom 1 (readlines content)).flatMap (fun p =>
          (List.range (p.2.length + 1)).map (fun pos =>
            { file_path := fp, line_num := p.1, match_text := []
              context := keywordContext (readlines content) p.2 p.1 k pos pos })) := by
  unfold search_in_file
  simp only []
  congr 1
  funext p
  rw [litFinditer_nil, List.map_map]
  apply List.map_congr_left
  intro pos _
  simp [pySlice]

/- ## Helper lemmas: rstrip, slicing, result membership -/

theorem pyRstrip_prefix_self (s : PyStr) : pyRstrip s <+: s := by
  unfold pyRstrip
  have h1 : s.reverse.dropWhile pyIsSpace <:+ s.reverse := List.dropWhile_suffix _
  have h2 := List.reverse_prefix.mpr h1
  simpa using h2

theorem pyRstrip_eq_take (s : PyStr) : pyRstrip s = s.take (pyRstrip s).length :=
  List.prefix_iff_eq_take.mp (pyRstrip_prefix_self s)

theorem pySlice_take {s : PyStr} {L a e : Nat} (h : e ≤ L) :
    pySlice (s.take L) a e = pySlice s a e := by
  unfold pySlice
  rw [List.drop_take, List.take_take]
  congr 1
  omega

theorem mem_search_in_file {fp : String} {content keyword : PyStr} {cs : Bool}
    {k : Nat} {r : MatchResult}
    (hr : r ∈ search_in_file fp (.ok content) keyword cs k) :
    ∃ n line s e, (n, line) ∈ enumFrom 1 (readlines content)
      ∧ (s, e) ∈ litFinditer cs keyword line
      ∧ r = { file_path := fp, line_num := n, match_text := pySlice line s e,
              context := keywordContext (readlines content) line n k s e } := by
  unfold search_in_file at hr
  simp only [List.mem_flatMap, List.mem_map] at hr
  obtain ⟨p, hp, m, hm, heq⟩ := hr
  exact ⟨p.1, p.2, m.1, m.2, by simpa using hp, by simpa using hm, heq.symm⟩

/-- Shift a 0-based index map over `range'` to a 1-based one. -/
theorem contextLines_shift (g : Nat → PyStr) (a b c d : Nat)
    (hab : b - a = d - c) (hac : ∀ i, i < b - a → a + i + 1 = c + i) :
    (pyRange a b).map (fun i => ContextLine.mk (i + 1) (g i))
      = (pyRange c d).map (fun j => ContextLine.mk j (g (j - 1))) := by
  unfold pyRange
  apply List.ext_getElem
  · simp [hab]
  · intro i h1 h2
    simp only [List.getElem_map, List.getElem_range']
    have hlen : i < b - a := by simpa using h1
    have h3 := hac i hlen
    rw [ContextLine.mk.injEq]
    constructor
    · omega
    · congr 1
      omega

theorem keywordContext_eq (lines : List PyStr) (line : PyStr) (m k s e : Nat)
    (h1 : 1 ≤ m) :
    keywordContext lines line m k s e
      = { pre := (pyRange (max 1 (m - k)) m).map
            (fun j => { line_num := j, content := pyRstrip (lines.getD (j - 1) []) })
          mtch := { line_num := m, content := pyRstrip line,
                    start_pos := s, end_pos := e }
          post := (pyRange (m + 1) (min lines.length (m + k) + 1)).map
            (fun j => { line_num := j, content := pyRstrip (lines.getD (j - 1) []) }) } := by
  unfold keywordContext
  have hpre := contextLines_shift (fun i => pyRstrip (lines.getD i []))
    (max 0 (m - k - 1)) (m - 1) (max 1 (m - k)) m (by omega)
    (by intro i hi; omega)
  have hpost := contextLines_shift (fun i => pyRstrip (lines.getD i []))
    m (min lines.length (m + k)) (m + 1) (min lines.length (m + k) + 1) (by omega)
    (by intro i hi; omega)
  rw [Context.mk.injEq]
  exact ⟨hpre, rfl, hpost⟩

/- ## Claim C4 (confirmed): keyword context windows are clipped, never
padded -/

/-- Claim C4: for every keyword-search result with match line `m` and context
size `k`, the pre-context is exactly lines `max 1 (m-k) … m-1` of the file's
lines (rstripped), the post-context exactly lines `m+1 … min n (m+k)`, each
has at most `k` entries, and neither contains the match line or a line number
outside `1 … n`. -/
theorem claim_C4 (fp : String) (content keyword : PyStr) (cs : Bool) (k : Nat)
    (r : MatchResult) (hr : r ∈ search_in_file fp (.ok content) keyword cs k) :
    (r.context.pre
        = (pyRange (max 1 (r.context.mtch.line_num - k)) r.context.mtch.line_num).map
            (fun j => { line_num := j
                        content := pyRstrip ((readlines content).getD (j - 1) []) }))
  ∧ (r.context.post
        = (pyRange (r.context.mtch.line_num + 1)
              (min (readlines content).length (r.context.mtch.line_num + k) + 1)).map
            (fun j => { line_num := j
                        content := pyRstrip ((readlines content).getD (j - 1) []) }))
  ∧ r.context.pre.length ≤ k
  ∧ r.context.post.length ≤ k
  ∧ (∀ c ∈ r.context.pre, 1 ≤ c.line_num ∧ c.line_num < r.context.mtch.line_num)
  ∧ (∀ c ∈ r.context.post,
        r.context.mtch.line_num < c.line_num
          ∧ c.line_num ≤ (readlines content).length) := by
  obtain ⟨n, line, s, e, hen, hm, rfl⟩ := mem_search_in_file hr
  obtain ⟨hn1, hn2, -⟩ := mem_enumFrom hen
  have hctx := keywordContext_eq (readlines content) line n k s e hn1
  have hnlen : n ≤ (readlines content).length := by
    simp only [List.length_cons] at hn2
    omega
  refine ⟨?_, ?_, ?_, ?_, ?_, ?_⟩
  · rw [hctx]
  · rw [hctx]
  · rw [hctx]
    simp only [List.length_map, pyRange, List.length_range']
    omega
  · rw [hctx]
    simp only [List.length_map, pyRange, List.length_range']
    omega
  · rw [hctx]
    intro c hc
    simp only [pyRange, List.mem_map, List.mem_range'] at hc
    obtain ⟨j, ⟨i, hi, hj⟩, rfl⟩ := hc
    simp only []
    omega
  · rw [hctx]
    intro c hc
    simp only [pyRange, List.mem_map, List.mem_range'] at hc
    obtain ⟨j, ⟨i, hi, hj⟩, rfl⟩ := hc
    simp only []
    omega

/-- Claim C4, witness: on the file `"a\nb\nc\n"`, keyword `"b"`, context 1,
the theorem applies and the pre-context is exactly line 1. -/
theorem claim_C4_witness :
    exC4result.context.pre = [{ line_num := 1, content := ['a'] }] :=
  ((claim_C4 "f" exC4file ['b'] true 1 exC4result (by decide)).1).trans (by decide)

/- ## Claim C5 (corrected): match span versus rstripped line content -/

/-- Claim C5, counterexample to the claim as stated: searching `"b "` (with a
trailing space) in the file `"ab \n"` reports the match line content as the
rstripped `"ab"`, the span 1..3 and the match text `"b "`; slicing the
reported content with the reported span yields `"b"`, not the match text. -/
theorem claim_C5_counterexample :
    (search_in_file "f" (.ok ['a', 'b', ' ', '\n']) ['b', ' '] true 3).length = 1
  ∧ (pySlice
      ((search_in_file "f" (.ok ['a', 'b', ' ', '\n']) ['b', ' '] true 3).headD
        default).context.mtch.content
      ((search_in_file "f" (.ok ['a', 'b', ' ', '\n']) ['b', ' '] true 3).headD
        default).context.mtch.start_pos
      ((search_in_file "f" (.ok ['a', 'b', ' ', '\n']) ['b', ' '] true 3).headD
        default).context.mtch.end_pos
      ≠ ((search_in_file "f" (.ok ['a', 'b', ' ', '\n']) ['b', ' '] true 3).headD
        default).match_text) := by
  decide

/-- Claim C5, amended: slicing the reported match-line content from the
reported start to end offset yields exactly the reported match text whenever
the span lies within the reported content, i.e. whenever the match does not
extend into the trailing whitespace that `rstrip` removed from the line
(which is the only case the counterexample exhibits). -/
theorem claim_C5_amended (fp : String) (content keyword : PyStr) (cs : Bool)
    (k : Nat) (r : MatchResult)
    (hr : r ∈ search_in_file fp (.ok content) keyword cs k)
    (hin : r.context.mtch.end_pos ≤ r.context.mtch.content.length) :
    pySlice r.context.mtch.content r.context.mtch.start_pos r.context.mtch.end_pos
      = r.match_text := by
  obtain ⟨n, line, s, e, hen, hm, rfl⟩ := mem_search_in_file hr
  have hin' : e ≤ (pyRstrip line).length := hin
  show pySlice (pyRstrip line) s e = pySlice line s e
  rw [pyRstrip_eq_take line]
  exact pySlice_take hin'

/-- Claim C5, witness: searching `"b"` in `"ab \n"` produces a result whose
span lies inside the rstripped content, and slicing reproduces the match
text. -/
theorem claim_C5_witness :
    exC5result ∈ search_in_file "f" (.ok exC5file) ['b'] true 3
  ∧ exC5result.context.mtch.end_pos ≤ exC5result.context.mtch.content.length
  ∧ pySlice exC5result.context.mtch.content exC5result.context.mtch.start_pos
        exC5result.context.mtch.end_pos
      = exC5result.match_text :=
  ⟨by decide, by decide,
    claim_C5_amended "f" exC5file ['b'] true 3 exC5result (by decide) (by decide)⟩

/- ## Claim C7 (confirmed): snippet match-line content spans all matched
lines -/

/-- Claim C7: for every snippet match (a span of the literal finditer over
the file content), the reported MatchLine content equals exactly the joined
lines from the line containing the match start through the line containing
the match end (lines located by counting preceding newlines), in file order
-- not a single truncated line.  This holds for any snippet, in particular
for 2-line and 3-line snippets. -/
theorem claim_C7 (content snippet : PyStr) (cs : Bool) (s e : Nat)
    (h : (s, e) ∈ litFinditer cs snippet content) :
    (snippetMatchLine content snippet s e).content = linesSpanned content s e := by
  obtain ⟨he, hle, hm⟩ := litFinditer_mem h
  have he' : e = s + snippet.length := he
  have hcount : countNl (content.take e)
      = countNl (content.take s) + countNl snippet := by
    have hsplit : content.take e
        = content.take s ++ (content.drop s).take snippet.length := by
      rw [he']
      exact List.take_add content s snippet.length
    rw [hsplit]
    unfold countNl
    rw [List.count_append]
    congr 1
    exact matchesHere_countNl hm
  show joinNl (((splitNl content).drop (countNl (content.take s) + 1 - 1)).take
        (countNl snippet + 1))
    = joinNl (((splitNl content).drop (countNl (content.take s) + 1 - 1)).take
        (countNl (content.take e) + 1 - (countNl (content.take s) + 1) + 1))
  have harith : countNl (content.take e) + 1 - (countNl (content.take s) + 1) + 1
      = countNl snippet + 1 := by
    rw [hcount]; omega
  rw [harith]

/-- Claim C7, witness: the 2-line snippet `"b\nc"` matched in
`"x\nab\ncd\ny"` at span 3..6 reports the joined spanned lines
`"ab\ncd"`. -/
theorem claim_C7_witness :
    ((3, 6) ∈ litFinditer true ['b', '\n', 'c']
        ['x', '\n', 'a', 'b', '\n', 'c', 'd', '\n', 'y'])
  ∧ (snippetMatchLine ['x', '\n', 'a', 'b', '\n', 'c', 'd', '\n', 'y']
        ['b', '\n', 'c'] 3 6).content
      = linesSpanned ['x', '\n', 'a', 'b', '\n', 'c', 'd', '\n', 'y'] 3 6 :=
  ⟨by decide,
    claim_C7 ['x', '\n', 'a', 'b', '\n', 'c', 'd', '\n', 'y'] ['b', '\n', 'c']
      true 3 6 (by decide)⟩

/- ## Helper lemmas: sorting and the structure builder -/

theorem mem_insertByName_self (e : FSEntry) : ∀ (l : List FSEntry), e ∈ insertByName e l := by
  intro l
  induction l with
  | nil => simp [insertByName]
  | cons x xs ih =>
    unfold insertByName
    by_cases h : pyStrLe (entryName e) (entryName x)
    · simp [h]
    · simp only [if_neg h, List.mem_cons]
      exact Or.inr ih

theorem mem_insertByName_of_mem {x e : FSEntry} :
    ∀ {l : List FSEntry}, x ∈ l → x ∈ insertByName e l := by
  intro l
  induction l with
  | nil => intro h; simp at h
  | cons y ys ih =>
    intro h
    unfold insertByName
    by_cases hle : pyStrLe (entryName e) (entryName y)
    · simp only [if_pos hle, List.mem_cons]
      rcases List.mem_cons.mp h with h1 | h2
      · exact Or.inr (Or.inl h1)
      · exact Or.inr (Or.inr h2)
    · simp only [if_neg hle, List.mem_cons]
      rcases List.mem_cons.mp h with h1 | h2
      · exact Or.inl h1
      · exact Or.inr (ih h2)

theorem mem_sortByName {x : FSEntry} :
    ∀ {l : List FSEntry}, x ∈ l → x ∈ sortByName l := by
  intro l
  induction l with
  | nil => intro h; simp at h
  | cons y ys ih =>
    intro h
    unfold sortByName
    rcases List.mem_cons.mp h with h1 | h2
    · subst h1; exact mem_insertByName_self x (sortByName ys)
    · exact mem_insertByName_of_mem (ih h2)

theorem noExpandList_cons (cap d : Nat) (x : Structure) (rest : List Structure) :
    noExpandList cap d (x :: rest)
      = (noExpandList cap d [x] && noExpandList cap d rest) := by
  cases x with
  | file n sz => simp [noExpandList]
  | dir n cs => simp [noExpandList, Bool.and_assoc]

theorem noExpandList_of_forall {cap d : Nat} {l : List Structure}
    (h : ∀ x ∈ l, noExpandList cap d [x] = true) :
    noExpandList cap d l = true := by
  induction l with
  | nil => simp [noExpandList]
  | cons x rest ih =>
    rw [noExpandList_cons, h x (List.mem_cons_self x rest),
      ih (fun y hy => h y (List.mem_cons_of_mem x hy))]
    rfl

/-- The builder never expands a directory node that sits strictly beyond the
depth cap, for any fuel. -/
theorem build_structure_noExpand (ft : List String) (cap : Nat) :
    ∀ (fuel : Nat) (dir name : String) (entries : List FSEntry) (d : Nat),
      noExpandList cap d [build_structure ft cap fuel dir name entries d] = true := by
  intro fuel
  induction fuel with
  | zero =>
    intro dir name entries d
    simp [build_structure, noExpandList]
  | succ n ih =>
    intro dir name entries d
    by_cases hd : cap < d
    · simp [build_structure, hd, noExpandList]
    · rw [build_structure, if_neg hd]
      have hdle : d ≤ cap := by omega
      have hdec : decide (d ≤ cap) = true := decide_eq_true hdle
      simp only [noExpandList, hdec, Bool.true_or, Bool.true_and, Bool.and_true]
      apply noExpandList_of_forall
      intro x hx
      rcases List.mem_filterMap.mp hx with ⟨a, _, hfa⟩
      cases a with
      | dir n' es' =>
        simp only [Option.some.injEq] at hfa
        rw [← hfa]
        exact ih (pjoin dir n') n' es' (d + 1)
      | file n' dt sz =>
        by_cases hft : is_file_type_matched (pjoin dir n') ft
        · simp only [hft, if_true, Option.some.injEq] at hfa
          rw [← hfa]
          simp [noExpandList]
        · simp [hft] at hfa

/- ## Claim C8 (corrected): the depth cap is off by one from the claim -/

/-- Claim C8, counterexample to the claim as stated: on a tree three levels
deep with `max_depth = 1`, the depth-1 directory `d1` is located at depth
`maxDepth` yet is expanded — its depth-2 children (`d2`, `f1`) are listed —
so it is not a childless, unexpanded node as the claim requires.  Only the
depth-2 directory `d2` is returned with no children. -/
theorem claim_C8_counterexample :
    get_file_structure "/r" (some (.dir "root" exC8entries)) [] 1 = .ok exC8structure
  ∧ structureChildren ((structureChildren exC8structure).headD (.file "" 0)) ≠ [] := by
  refine ⟨rfl, ?_⟩
  exact List.cons_ne_nil _ _

/-- Claim C8, amended: depth is measured from the root at 0, and expansion is
capped one level past `maxDepth`: every directory node at depth strictly
beyond `maxDepth` appears with no children at all (the builder expands a
directory at depth `d` exactly when `d ≤ maxDepth`), while files — in
particular files directly under the root — that pass the type filter are
listed among the children of every expanded directory. -/
theorem claim_C8_amended (directory rootName : String) (entries : List FSEntry)
    (ft : List String) (max_depth : Nat) (s : Structure)
    (hs : get_file_structure directory (some (.dir rootName entries)) ft max_depth
      = .ok s) :
    noExpandList max_depth 0 [s] = true
  ∧ ∀ n data sz, FSEntry.file n data sz ∈ entries →
      is_file_type_matched (pjoin directory n) ft = true →
      Structure.file n sz ∈ structureChildren s := by
  unfold get_file_structure at hs
  have hs' : s = build_structure ft max_depth (max_depth + 1) directory rootName entries 0 :=
    (Except.ok.inj hs).symm
  subst hs'
  constructor
  · exact build_structure_noExpand ft max_depth (max_depth + 1) directory rootName entries 0
  · intro n data sz hmem hft
    rw [build_structure, if_neg (by omega : ¬ max_depth < 0)]
    simp only [structureChildren]
    apply List.mem_filterMap.mpr
    refine ⟨.file n data sz, mem_sortByName hmem, ?_⟩
    simp [hft]

/-- Claim C8, witness: on the three-level sample tree with `max_depth = 1`
the amended theorem applies: nothing beyond depth 1 is expanded in the
returned structure, and the root file `f0` is listed. -/
theorem claim_C8_witness :
    noExpandList 1 0 [exC8structure] = true
  ∧ Structure.file "f0" 7 ∈ structureChildren exC8structure :=
  ⟨(claim_C8_amended "/r" "root" exC8entries [] 1 exC8structure rfl).1,
   (claim_C8_amended "/r" "root" exC8entries [] 1 exC8structure rfl).2 "f0" (.ok []) 7
     (by simp [exC8entries]) (by decide)⟩

/- ## Helper lemmas: the capped result-append loop -/

theorem capAppend_length (max_results : Nat) :
    ∀ (ms acc : List MatchResult), acc.length ≤ max_results →
      (capAppend max_results acc ms).1.length
        = min max_results (acc.length + ms.length) := by
  intro ms
  induction ms with
  | nil =>
    intro acc h
    simp only [capAppend, List.length_nil, Nat.add_zero]
    omega
  | cons r rest ih =>
    intro acc h
    unfold capAppend
    by_cases hc : max_results ≤ (acc ++ [r]).length
    · rw [if_pos hc]
      simp only [List.length_take, List.length_append, List.length_cons,
        List.length_nil] at *
      omega
    · rw [if_neg hc]
      simp only [List.length_append, List.length_cons, List.length_nil] at hc
      rw [ih _ (by simp; omega)]
      simp only [List.length_append, List.length_cons, List.length_nil]
      omega

theorem capAppend_not_stopped (max_results : Nat) :
    ∀ (ms acc : List MatchResult), (capAppend max_results acc ms).2 = false →
      (capAppend max_results acc ms).1 = acc ++ ms := by
  intro ms
  induction ms with
  | nil => intro acc _; simp [capAppend]
  | cons r rest ih =>
    intro acc h
    unfold capAppend at h ⊢
    by_cases hc : max_results ≤ (acc ++ [r]).length
    · rw [if_pos hc] at h
      simp at h
    · rw [if_neg hc] at h ⊢
      rw [ih _ h]
      simp

theorem capAppend_stopped (max_results : Nat) :
    ∀ (ms acc : List MatchResult), (capAppend max_results acc ms).2 = true →
      max_results ≤ acc.length + ms.length := by
  intro ms
  induction ms with
  | nil => intro acc h; simp [capAppend] at h
  | cons r rest ih =>
    intro acc h
    unfold capAppend at h
    by_cases hc : max_results ≤ (acc ++ [r]).length
    · simp only [List.length_append, List.length_cons, List.length_nil] at hc
      simp only [List.length_cons]
      omega
    · rw [if_neg hc] at h
      have := ih _ h
      simp only [List.length_append, List.length_cons, List.length_nil] at this
      simp only [List.length_cons]
      omega

theorem capAppend_full (max_results : Nat) (ms acc : List MatchResult)
    (h : acc.length = max_results) :
    (capAppend max_results acc ms).1 = acc := by
  cases ms with
  | nil => rfl
  | cons r rest =>
    unfold capAppend
    rw [if_pos (by simp; omega)]
    rw [← h, List.take_left]

/- ## Helper lemmas: the keyword traversal loop -/

theorem search_in_directory_go_cons_matched (keyword : PyStr) (ft : List String)
    (cs : Bool) (k max_results : Nat) (fp : String) (d : Except ReadError PyStr)
    (rest : List (String × Except ReadError PyStr)) (results : List MatchResult)
    (hm : is_file_type_matched fp ft = true) :
    search_in_directory_go keyword ft cs k max_results ((fp, d) :: rest) results
      = (if max_results ≤ (results ++ search_in_file fp d keyword cs k).length
         then (results ++ search_in_file fp d keyword cs k).take max_results
         else search_in_directory_go keyword ft cs k max_results rest
                (results ++ search_in_file fp d keyword cs k)) := by
  simp only [search_in_directory_go]
  rw [if_neg (by simp [hm])]

theorem search_in_directory_go_cons_unmatched (keyword : PyStr) (ft : List String)
    (cs : Bool) (k max_results : Nat) (fp : String) (d : Except ReadError PyStr)
    (rest : List (String × Except ReadError PyStr)) (results : List MatchResult)
    (hm : ¬ is_file_type_matched fp ft = true) :
    search_in_directory_go keyword ft cs k max_results ((fp, d) :: rest) results
      = search_in_directory_go keyword ft cs k max_results rest results := by
  simp only [search_in_directory_go]
  rw [if_pos hm]

theorem search_in_directory_go_length (keyword : PyStr) (ft : List String)
    (cs : Bool) (k max_results : Nat) :
    ∀ (files : List (String × Except ReadError PyStr)) (results : List MatchResult),
      results.length ≤ max_results →
      (search_in_directory_go keyword ft cs k max_results files results).length
        = min max_results (results.length + keywordTotalMatches keyword ft cs k files) := by
  intro files
  induction files with
  | nil =>
    intro results h
    simp only [search_in_directory_go, keywordTotalMatches, List.map_nil,
      List.sum_nil, Nat.add_zero]
    omega
  | cons f rest ih =>
    intro results h
    obtain ⟨fp, d⟩ := f
    have htot : keywordTotalMatches keyword ft cs k ((fp, d) :: rest)
        = (if is_file_type_matched fp ft then
            (search_in_file fp d keyword cs k).length else 0)
          + keywordTotalMatches keyword ft cs k rest := by
      simp [keywordTotalMatches]
    by_cases hm : is_file_type_matched fp ft
    · rw [search_in_directory_go_cons_matched keyword ft cs k max_results fp d rest results hm]
      have hlen := List.length_append results (search_in_file fp d keyword cs k)
      by_cases hc : max_results ≤ (results ++ search_in_file fp d keyword cs k).length
      · rw [if_pos hc]
        rw [htot, if_pos hm]
        simp only [List.length_take]
        omega
      · rw [if_neg hc]
        rw [ih _ (by omega)]
        rw [htot, if_pos hm]
        omega
    · rw [search_in_directory_go_cons_unmatched keyword ft cs k max_results fp d rest results hm]
      rw [ih _ h, htot, if_neg (by simpa using hm)]
      omega

theorem search_in_directory_go_full (keyword : PyStr) (ft : List String)
    (cs : Bool) (k max_results : Nat) :
    ∀ (files : List (String × Except ReadError PyStr)) (results : List MatchResult),
      results.length = max_results →
      search_in_directory_go keyword ft cs k max_results files results = results := by
  intro files
  induction files with
  | nil => intro results _; rfl
  | cons f rest ih =>
    intro results h
    obtain ⟨fp, d⟩ := f
    by_cases hm : is_file_type_matched fp ft
    · rw [search_in_directory_go_cons_matched keyword ft cs k max_results fp d rest results hm]
      have hlen := List.length_append results (search_in_file fp d keyword cs k)
      rw [if_pos (by omega)]
      rw [← h, List.take_left]
    · rw [search_in_directory_go_cons_unmatched keyword ft cs k max_results fp d rest results hm]
      exact ih results h

theorem search_in_directory_go_append (keyword : PyStr) (ft : List String)
    (cs : Bool) (k max_results : Nat) :
    ∀ (files extra : List (String × Except ReadError PyStr))
      (results : List MatchResult),
      results.length ≤ max_results →
      max_results ≤ results.length + keywordTotalMatches keyword ft cs k files →
      search_in_directory_go keyword ft cs k max_results (files ++ extra) results
        = search_in_directory_go keyword ft cs k max_results files results := by
  intro files
  induction files with
  | nil =>
    intro extra results h1 h2
    simp only [keywordTotalMatches, List.map_nil, List.sum_nil, Nat.add_zero] at h2
    have hfull : results.length = max_results := by omega
    rw [List.nil_append,
      search_in_directory_go_full keyword ft cs k max_results extra results hfull]
    rfl
  | cons f rest ih =>
    intro extra results h1 h2
    obtain ⟨fp, d⟩ := f
    have htot : keywordTotalMatches keyword ft cs k ((fp, d) :: rest)
        = (if is_file_type_matched fp ft then
            (search_in_file fp d keyword cs k).length else 0)
          + keywordTotalMatches keyword ft cs k rest := by
      simp [keywordTotalMatches]
    rw [List.cons_append]
    by_cases hm : is_file_type_matched fp ft
    · rw [search_in_directory_go_cons_matched keyword ft cs k max_results fp d (rest ++ extra) results hm]
      rw [search_in_directory_go_cons_matched keyword ft cs k max_results fp d rest results hm]
      have hlen := List.length_append results (search_in_file fp d keyword cs k)
      by_cases hc : max_results ≤ (results ++ search_in_file fp d keyword cs k).length
      · rw [if_pos hc, if_pos hc]
      · rw [if_neg hc, if_neg hc]
        apply ih
        · omega
        · rw [htot, if_pos hm] at h2
          omega
    · rw [search_in_directory_go_cons_unmatched keyword ft cs k max_results fp d (rest ++ extra) results hm]
      rw [search_in_directory_go_cons_unmatched keyword ft cs k max_results fp d rest results hm]
      apply ih _ _ h1
      rw [htot, if_neg (by simpa using hm)] at h2
      omega

theorem search_in_directory_go_filter (keyword : PyStr) (ft : List String)
    (cs : Bool) (k max_results : Nat) :
    ∀ (files : List (String × Except ReadError PyStr)) (results : List MatchResult),
      results.length < max_results →
      search_in_directory_go keyword ft cs k max_results (files.filter readOk) results
        = search_in_directory_go keyword ft cs k max_results files results := by
  intro files
  induction files with
  | nil => intro results _; rfl
  | cons f rest ih =>
    intro results h
    obtain ⟨fp, d⟩ := f
    cases d with
    | error err =>
      rw [List.filter_cons_of_neg (by simp [readOk])]
      by_cases hm : is_file_type_matched fp ft
      · rw [search_in_directory_go_cons_matched keyword ft cs k max_results fp (.error err) rest results hm]
        have hsif : search_in_file fp (.error err) keyword cs k = [] := rfl
        rw [hsif, List.append_nil, if_neg (by omega)]
        exact ih results h
      · rw [search_in_directory_go_cons_unmatched keyword ft cs k max_results fp (.error err) rest results hm]
        exact ih results h
    | ok content =>
      rw [List.filter_cons_of_pos (by simp [readOk])]
      by_cases hm : is_file_type_matched fp ft
      · rw [search_in_directory_go_cons_matched keyword ft cs k max_results fp (.ok content) (rest.filter readOk) results hm]
        rw [search_in_directory_go_cons_matched keyword ft cs k max_results fp (.ok content) rest results hm]
        have hlen := List.length_append results (search_in_file fp (.ok content) keyword cs k)
        by_cases hc : max_results
            ≤ (results ++ search_in_file fp (.ok content) keyword cs k).length
        · rw [if_pos hc, if_pos hc]
        · rw [if_neg hc, if_neg hc]
          apply ih
          omega
      · rw [search_in_directory_go_cons_unmatched keyword ft cs k max_results fp (.ok content) (rest.filter readOk) results hm]
        rw [search_in_directory_go_cons_unmatched keyword ft cs k max_results fp (.ok content) rest results hm]
        exact ih results h

/- ## Helper lemmas: the snippet traversal loop -/

theorem search_code_snippet_go_cons_unmatched (snippet : PyStr) (ft : List String)
    (cs : Bool) (k max_results : Nat) (fp : String) (d : Except ReadError PyStr)
    (rest : List (String × Except ReadError PyStr)) (results : List MatchResult)
    (hm : ¬ is_file_type_matched fp ft = true) :
    search_code_snippet_go snippet ft cs k max_results ((fp, d) :: rest) results
      = search_code_snippet_go snippet ft cs k max_results rest results := by
  simp only [search_code_snippet_go]
  rw [if_pos hm]

theorem search_code_snippet_go_cons_error (snippet : PyStr) (ft : List String)
    (cs : Bool) (k max_results : Nat) (fp : String) (err : ReadError)
    (rest : List (String × Except ReadError PyStr)) (results : List MatchResult)
    (hm : is_file_type_matched fp ft = true) :
    search_code_snippet_go snippet ft cs k max_results ((fp, .error err) :: rest) results
      = search_code_snippet_go snippet ft cs k max_results rest results := by
  simp only [search_code_snippet_go]
  rw [if_neg (by simp [hm])]

theorem search_code_snippet_go_cons_ok (snippet : PyStr) (ft : List String)
    (cs : Bool) (k max_results : Nat) (fp : String) (content : PyStr)
    (rest : List (String × Except ReadError PyStr)) (results : List MatchResult)
    (hm : is_file_type_matched fp ft = true) :
    search_code_snippet_go snippet ft cs k max_results ((fp, .ok content) :: rest) results
      = (match capAppend max_results results
            (snippet_file_matches fp content snippet cs k) with
         | (results', true) => results'
         | (results', false) =>
            search_code_snippet_go snippet ft cs k max_results rest results') := by
  simp only [search_code_snippet_go]
  rw [if_neg (by simp [hm])]

theorem search_code_snippet_go_length (snippet : PyStr) (ft : List String)
    (cs : Bool) (k max_results : Nat) :
    ∀ (files : List (String × Except ReadError PyStr)) (results : List MatchResult),
      results.length ≤ max_results →
      (search_code_snippet_go snippet ft cs k max_results files results).length
        = min max_results
            (results.length + snippetTotalMatches snippet ft cs k files) := by
  intro files
  induction files with
  | nil =>
    intro results h
    simp only [search_code_snippet_go, snippetTotalMatches, List.map_nil,
      List.sum_nil, Nat.add_zero]
    omega
  | cons f rest ih =>
    intro results h
    obtain ⟨fp, d⟩ := f
    by_cases hm : is_file_type_matched fp ft
    · cases d with
      | error err =>
        have htot : snippetTotalMatches snippet ft cs k ((fp, .error err) :: rest)
            = snippetTotalMatches snippet ft cs k rest := by
          simp [snippetTotalMatches, hm]
        rw [search_code_snippet_go_cons_error snippet ft cs k max_results fp err
          rest results hm, ih _ h, htot]
      | ok content =>
        have htot : snippetTotalMatches snippet ft cs k ((fp, .ok content) :: rest)
            = (snippet_file_matches fp content snippet cs k).length
              + snippetTotalMatches snippet ft cs k rest := by
          simp [snippetTotalMatches, hm]
        rw [search_code_snippet_go_cons_ok snippet ft cs k max_results fp content
          rest results hm, htot]
        have h1 := capAppend_length max_results
          (snippet_file_matches fp content snippet cs k) results h
        rcases hca : capAppend max_results results
          (snippet_file_matches fp content snippet cs k) with ⟨res, b⟩
        rw [hca] at h1
        cases b with
        | true =>
          have h2 := capAppend_stopped max_results
            (snippet_file_matches fp content snippet cs k) results (by rw [hca])
          have h1x : res.length = min max_results
              (results.length + (snippet_file_matches fp content snippet cs k).length) := h1
          show res.length = _
          omega
        | false =>
          have h2 := capAppend_not_stopped max_results
            (snippet_file_matches fp content snippet cs k) results (by rw [hca])
          rw [hca] at h2
          have h3 : res.length
              = results.length + (snippet_file_matches fp content snippet cs k).length := by
            rw [show res = results ++ snippet_file_matches fp content snippet cs k from h2]
            exact List.length_append _ _
          have h1x : res.length = min max_results
              (results.length + (snippet_file_matches fp content snippet cs k).length) := h1
          show (search_code_snippet_go snippet ft cs k max_results rest res).length = _
          rw [ih res (by omega)]
          omega
    · have htot : snippetTotalMatches snippet ft cs k ((fp, d) :: rest)
          = snippetTotalMatches snippet ft cs k rest := by
        simp [snippetTotalMatches, hm]
      rw [search_code_snippet_go_cons_unmatched snippet ft cs k max_results fp d
        rest results hm, ih _ h, htot]

theorem search_code_snippet_go_full (snippet : PyStr) (ft : List String)
    (cs : Bool) (k max_results : Nat) :
    ∀ (files : List (String × Except ReadError PyStr)) (results : List MatchResult),
      results.length = max_results →
      search_code_snippet_go snippet ft cs k max_results files results = results := by
  intro files
  induction files with
  | nil => intro results _; rfl
  | cons f rest ih =>
    intro results h
    obtain ⟨fp, d⟩ := f
    by_cases hm : is_file_type_matched fp ft
    · cases d with
      | error err =>
        rw [search_code_snippet_go_cons_error snippet ft cs k max_results fp err
          rest results hm]
        exact ih results h
      | ok content =>
        rw [search_code_snippet_go_cons_ok snippet ft cs k max_results fp content
          rest results hm]
        have hfst := capAppend_full max_results
          (snippet_file_matches fp content snippet cs k) results h
        rcases hca : capAppend max_results results
          (snippet_file_matches fp content snippet cs k) with ⟨res, b⟩
        rw [hca] at hfst
        cases b with
        | true =>
          exact hfst
        | false =>
          show search_code_snippet_go snippet ft cs k max_results rest res = results
          rw [show res = results from hfst]
          exact ih results h
    · rw [search_code_snippet_go_cons_unmatched snippet ft cs k max_results fp d
        rest results hm]
      exact ih results h

theorem search_code_snippet_go_append (snippet : PyStr) (ft : List String)
    (cs : Bool) (k max_results : Nat) :
    ∀ (files extra : List (String × Except ReadError PyStr))
      (results : List MatchResult),
      results.length ≤ max_results →
      max_results ≤ results.length + snippetTotalMatches snippet ft cs k files →
      search_code_snippet_go snippet ft cs k max_results (files ++ extra) results
        = search_code_snippet_go snippet ft cs k max_results files results := by
  intro files
  induction files with
  | nil =>
    intro extra results h1 h2
    simp only [snippetTotalMatches, List.map_nil, List.sum_nil, Nat.add_zero] at h2
    have hfull : results.length = max_results := by omega
    rw [List.nil_append,
      search_code_snippet_go_full snippet ft cs k max_results extra results hfull]
    rfl
  | cons f rest ih =>
    intro extra results h1 h2
    obtain ⟨fp, d⟩ := f
    rw [List.cons_append]
    by_cases hm : is_file_type_matched fp ft
    · cases d with
      | error err =>
        have htot : snippetTotalMatches snippet ft cs k ((fp, .error err) :: rest)
            = snippetTotalMatches snippet ft cs k rest := by
          simp [snippetTotalMatches, hm]
        rw [search_code_snippet_go_cons_error snippet ft cs k max_results fp err
          (rest ++ extra) results hm]
        rw [search_code_snippet_go_cons_error snippet ft cs k max_results fp err
          rest results hm]
        rw [htot] at h2
        exact ih extra results h1 h2
      | ok content =>
        have htot : snippetTotalMatches snippet ft cs k ((fp, .ok content) :: rest)
            = (snippet_file_matches fp content snippet cs k).length
              + snippetTotalMatches snippet ft cs k rest := by
          simp [snippetTotalMatches, hm]
        rw [search_code_snippet_go_cons_ok snippet ft cs k max_results fp content
          (rest ++ extra) results hm]
        rw [search_code_snippet_go_cons_ok snippet ft cs k max_results fp content
          rest results hm]
        have h1' := capAppend_length max_results
          (snippet_file_matches fp content snippet cs k) results h1
        rcases hca : capAppend max_results results
          (snippet_file_matches fp content snippet cs k) with ⟨res, b⟩
        rw [hca] at h1'
        cases b with
        | true => rfl
        | false =>
          have h2' := capAppend_not_stopped max_results
            (snippet_file_matches fp content snippet cs k) results (by rw [hca])
          rw [hca] at h2'
          have h3 : res.length
              = results.length + (snippet_file_matches fp content snippet cs k).length := by
            rw [show res = results ++ snippet_file_matches fp content snippet cs k from h2']
            exact List.length_append _ _
          have h1x : res.length = min max_results
              (results.length + (snippet_file_matches fp content snippet cs k).length) := h1'
          show search_code_snippet_go snippet ft cs k max_results (rest ++ extra) res
            = search_code_snippet_go snippet ft cs k max_results rest res
          apply ih
          · omega
          · rw [htot] at h2
            omega
    · have htot : snippetTotalMatches snippet ft cs k ((fp, d) :: rest)
          = snippetTotalMatches snippet ft cs k rest := by
        simp [snippetTotalMatches, hm]
      rw [search_code_snippet_go_cons_unmatched snippet ft cs k max_results fp d
        (rest ++ extra) results hm]
      rw [search_code_snippet_go_cons_unmatched snippet ft cs k max_results fp d
        rest results hm]
      rw [htot] at h2
      exact ih extra results h1 h2

theorem search_code_snippet_go_filter (snippet : PyStr) (ft : List String)
    (cs : Bool) (k max_results : Nat) :
    ∀ (files : List (String × Except ReadError PyStr)) (results : List MatchResult),
      search_code_snippet_go snippet ft cs k max_results (files.filter readOk) results
        = search_code_snippet_go snippet ft cs k max_results files results := by
  intro files
  induction files with
  | nil => intro results; rfl
  | cons f rest ih =>
    intro results
    obtain ⟨fp, d⟩ := f
    cases d with
    | error err =>
      rw [List.filter_cons_of_neg (by simp [readOk])]
      by_cases hm : is_file_type_matched fp ft
      · rw [search_code_snippet_go_cons_error snippet ft cs k max_results fp err
          rest results hm]
        exact ih results
      · rw [search_code_snippet_go_cons_unmatched snippet ft cs k max_results fp
          (.error err) rest results hm]
        exact ih results
    | ok content =>
      rw [List.filter_cons_of_pos (by simp [readOk])]
      by_cases hm : is_file_type_matched fp ft
      · rw [search_code_snippet_go_cons_ok snippet ft cs k max_results fp content
          (rest.filter readOk) results hm]
        rw [search_code_snippet_go_cons_ok snippet ft cs k max_results fp content
          rest results hm]
        rcases hca : capAppend max_results results
          (snippet_file_matches fp content snippet cs k) with ⟨res, b⟩
        cases b with
        | true => rfl
        | false =>
          show search_code_snippet_go snippet ft cs k max_results (rest.filter readOk) res
            = search_code_snippet_go snippet ft cs k max_results rest res
          exact ih res
      · rw [search_code_snippet_go_cons_unmatched snippet ft cs k max_results fp
          (.ok content) (rest.filter readOk) results hm]
        rw [search_code_snippet_go_cons_unmatched snippet ft cs k max_results fp
          (.ok content) rest results hm]
        exact ih results

/- ## Helper lemmas: the regex traversal loop -/

theorem regexMatchLoop_ok (fp : String) (fileLines : List PyStr) (content : PyStr)
    (k max_results : Nat) :
    ∀ (spans : List (Nat × Nat)) (results res : List MatchResult) (b : Bool),
      regexMatchLoop fp fileLines content k max_results results spans = .ok (res, b) →
      (b = true → res.length = max_results
          ∧ max_results ≤ results.length + spans.length)
      ∧ (b = false → res.length = results.length + spans.length)
      ∧ (b = false → results.length ≤ max_results → res.length ≤ max_results)
      ∧ (b = false → results.length < max_results → res.length < max_results) := by
  intro spans
  induction spans with
  | nil =>
    intro results res b h
    simp only [regexMatchLoop] at h
    have h' := Except.ok.inj h
    injection h' with hr hb
    subst hr
    subst hb
    refine ⟨fun ht => by simp at ht, fun _ => by simp, fun _ hle => hle, fun _ hlt => hlt⟩
  | cons m rest ih =>
    intro results res b h
    unfold regexMatchLoop at h
    split at h
    next exc hctx => exact Except.noConfusion h
    next ctx hctx =>
      by_cases hc : max_results ≤ (results ++ [regexResult fp content ctx m.1 m.2]).length
      · rw [if_pos hc] at h
        have h' := Except.ok.inj h
        injection h' with hr hb
        subst hr
        subst hb
        have hlen : (results ++ [regexResult fp content ctx m.1 m.2]).length
            = results.length + 1 := by simp
        refine ⟨fun _ => ⟨?_, ?_⟩, fun hf => by simp at hf,
                fun hf => by simp at hf, fun hf => by simp at hf⟩
        · simp only [List.length_take]
          omega
        · simp only [List.length_cons]
          omega
      · rw [if_neg hc] at h
        obtain ⟨i1, i2, i3, i4⟩ :=
          ih (results ++ [regexResult fp content ctx m.1 m.2]) res b h
        have hlen : (results ++ [regexResult fp content ctx m.1 m.2]).length
            = results.length + 1 := by simp
        refine ⟨fun ht => ?_, fun hf => ?_, fun hf hle => ?_, fun hf hlt => ?_⟩
        · obtain ⟨ha, hbnd⟩ := i1 ht
          refine ⟨ha, ?_⟩
          simp only [List.length_cons]
          omega
        · have := i2 hf
          simp only [List.length_cons]
          omega
        · exact i3 hf (by omega)
        · exact i4 hf (by omega)

theorem search_by_regex_go_cons_unmatched (matcher : Matcher) (ft : List String)
    (k max_results : Nat) (fp : String) (d : Except ReadError PyStr)
    (rest : List (String × Except ReadError PyStr)) (results : List MatchResult)
    (hm : ¬ is_file_type_matched fp ft = true) :
    search_by_regex_go matcher ft k max_results ((fp, d) :: rest) results
      = search_by_regex_go matcher ft k max_results rest results := by
  simp only [search_by_regex_go]
  rw [if_pos hm]

theorem search_by_regex_go_cons_error (matcher : Matcher) (ft : List String)
    (k max_results : Nat) (fp : String) (err : ReadError)
    (rest : List (String × Except ReadError PyStr)) (results : List MatchResult)
    (hm : is_file_type_matched fp ft = true) :
    search_by_regex_go matcher ft k max_results ((fp, .error err) :: rest) results
      = search_by_regex_go matcher ft k max_results rest results := by
  simp only [search_by_regex_go]
  rw [if_neg (by simp [hm])]

theorem search_by_regex_go_cons_ok (matcher : Matcher) (ft : List String)
    (k max_results : Nat) (fp : String) (content : PyStr)
    (rest : List (String × Except ReadError PyStr)) (results : List MatchResult)
    (hm : is_file_type_matched fp ft = true) :
    search_by_regex_go matcher ft k max_results ((fp, .ok content) :: rest) results
      = (match regexMatchLoop fp (readlines content) (joinNl (readlines content))
            k max_results results (matcher (joinNl (readlines content))) with
         | .error exc => .error exc
         | .ok (results', true) => .ok results'
         | .ok (results', false) =>
            search_by_regex_go matcher ft k max_results rest results') := by
  simp only [search_by_regex_go]
  rw [if_neg (by simp [hm])]

theorem search_by_regex_go_ok_length (matcher : Matcher) (ft : List String)
    (k max_results : Nat) :
    ∀ (files : List (String × Except ReadError PyStr)) (results rs : List MatchResult),
      results.length ≤ max_results →
      search_by_regex_go matcher ft k max_results files results = .ok rs →
      rs.length = min max_results
        (results.length + regexTotalMatches matcher ft files) := by
  intro files
  induction files with
  | nil =>
    intro results rs h hok
    simp only [search_by_regex_go] at hok
    obtain rfl := Except.ok.inj hok
    simp only [regexTotalMatches, List.map_nil, List.sum_nil, Nat.add_zero]
    omega
  | cons f rest ih =>
    intro results rs h hok
    obtain ⟨fp, d⟩ := f
    by_cases hm : is_file_type_matched fp ft
    · cases d with
      | error err =>
        have htot : regexTotalMatches matcher ft ((fp, .error err) :: rest)
            = regexTotalMatches matcher ft rest := by
          simp [regexTotalMatches, hm]
        rw [search_by_regex_go_cons_error matcher ft k max_results fp err rest
          results hm] at hok
        rw [htot]
        exact ih results rs h hok
      | ok content =>
        have htot : regexTotalMatches matcher ft ((fp, .ok content) :: rest)
            = (matcher (joinNl (readlines content))).length
              + regexTotalMatches matcher ft rest := by
          simp [regexTotalMatches, hm]
        rw [search_by_regex_go_cons_ok matcher ft k max_results fp content rest
          results hm] at hok
        rw [htot]
        cases hL : regexMatchLoop fp (readlines content) (joinNl (readlines content))
            k max_results results (matcher (joinNl (readlines content))) with
        | error exc =>
          rw [hL] at hok
          exact Except.noConfusion hok
        | ok p =>
          obtain ⟨res, b⟩ := p
          rw [hL] at hok
          obtain ⟨i1, i2, i3, i4⟩ := regexMatchLoop_ok fp (readlines content)
            (joinNl (readlines content)) k max_results
            (matcher (joinNl (readlines content))) results res b hL
          cases b with
          | true =>
            have hok2 : (Except.ok res : Except PyExc (List MatchResult)) = .ok rs := hok
            obtain rfl := Except.ok.inj hok2
            obtain ⟨hrl, hbnd⟩ := i1 rfl
            omega
          | false =>
            have hok2 : search_by_regex_go matcher ft k max_results rest res
                = .ok rs := hok
            have hlen := i2 rfl
            have hle := i3 rfl h
            have := ih res rs hle hok2
            omega
    · have htot : regexTotalMatches matcher ft ((fp, d) :: rest)
          = regexTotalMatches matcher ft rest := by
        simp [regexTotalMatches, hm]
      rw [search_by_regex_go_cons_unmatched matcher ft k max_results fp d rest
        results hm] at hok
      rw [htot]
      exact ih results rs h hok

theorem search_by_regex_go_ok_append (matcher : Matcher) (ft : List String)
    (k max_results : Nat) :
    ∀ (files extra : List (String × Except ReadError PyStr))
      (results rs : List MatchResult),
      results.length < max_results →
      max_results ≤ results.length + regexTotalMatches matcher ft files →
      search_by_regex_go matcher ft k max_results files results = .ok rs →
      search_by_regex_go matcher ft k max_results (files ++ extra) results
        = .ok rs := by
  intro files
  induction files with
  | nil =>
    intro extra results rs h1 h2 hok
    simp only [regexTotalMatches, List.map_nil, List.sum_nil, Nat.add_zero] at h2
    exact absurd h2 (by omega)
  | cons f rest ih =>
    intro extra results rs h1 h2 hok
    obtain ⟨fp, d⟩ := f
    rw [List.cons_append]
    by_cases hm : is_file_type_matched fp ft
    · cases d with
      | error err =>
        have htot : regexTotalMatches matcher ft ((fp, .error err) :: rest)
            = regexTotalMatches matcher ft rest := by
          simp [regexTotalMatches, hm]
        rw [search_by_regex_go_cons_error matcher ft k max_results fp err
          (rest ++ extra) results hm]
        rw [search_by_regex_go_cons_error matcher ft k max_results fp err rest
          results hm] at hok
        rw [htot] at h2
        exact ih extra results rs h1 h2 hok
      | ok content =>
        have htot : regexTotalMatches matcher ft ((fp, .ok content) :: rest)
            = (matcher (joinNl (readlines content))).length
              + regexTotalMatches matcher ft rest := by
          simp [regexTotalMatches, hm]
        rw [search_by_regex_go_cons_ok matcher ft k max_results fp content
          (rest ++ extra) results hm]
        rw [search_by_regex_go_cons_ok matcher ft k max_results fp content rest
          results hm] at hok
        cases hL : regexMatchLoop fp (readlines content) (joinNl (readlines content))
            k max_results results (matcher (joinNl (readlines content))) with
        | error exc =>
          rw [hL] at hok
          exact Except.noConfusion hok
        | ok p =>
          obtain ⟨res, b⟩ := p
          rw [hL] at hok
          obtain ⟨i1, i2, i3, i4⟩ := regexMatchLoop_ok fp (readlines content)
            (joinNl (readlines content)) k max_results
            (matcher (joinNl (readlines content))) results res b hL
          cases b with
          | true => exact hok
          | false =>
            have hok2 : search_by_regex_go matcher ft k max_results rest res
                = .ok rs := hok
            show search_by_regex_go matcher ft k max_results (rest ++ extra) res
              = .ok rs
            have hlen := i2 rfl
            have hlt := i4 rfl h1
            refine ih extra res rs hlt ?_ hok2
            rw [htot] at h2
            omega
    · have htot : regexTotalMatches matcher ft ((fp, d) :: rest)
          = regexTotalMatches matcher ft rest := by
        simp [regexTotalMatches, hm]
      rw [search_by_regex_go_cons_unmatched matcher ft k max_results fp d
        (rest ++ extra) results hm]
      rw [search_by_regex_go_cons_unmatched matcher ft k max_results fp d rest
        results hm] at hok
      rw [htot] at h2
      exact ih extra results rs h1 h2 hok

/- ## Helper lemmas: pruning unreadable files commutes with the walk -/

theorem dirFiles_pruneList (path : String) (es : List FSEntry) :
    dirFiles path (pruneList es) = (dirFiles path es).filter readOk := by
  induction es using pruneList.induct with
  | case1 => simp [pruneList, dirFiles]
  | case2 n e sz rest ih =>
    simp only [pruneList, dirFiles, List.filter_cons]
    rw [if_neg (by simp [readOk])]
    exact ih
  | case3 n c sz rest ih =>
    simp only [pruneList, dirFiles, List.filter_cons]
    rw [if_pos (by simp [readOk])]
    rw [ih]
  | case4 n es' rest ih1 ih2 =>
    simp only [pruneList, dirFiles]
    exact ih2

theorem walkList_pruneList (es : List FSEntry) :
    ∀ (path : String),
      walkList path (pruneList es) = (walkList path es).filter readOk := by
  induction es using pruneList.induct with
  | case1 => intro path; simp [pruneList, walkList]
  | case2 n e sz rest ih =>
    intro path
    simp only [pruneList, walkList]
    exact ih path
  | case3 n c sz rest ih =>
    intro path
    simp only [pruneList, walkList]
    exact ih path
  | case4 n es' rest ih1 ih2 =>
    intro path
    simp only [pruneList, walkList, List.filter_append]
    rw [dirFiles_pruneList, ih1, ih2]

theorem osWalkFiles_prune (directory : String) (t : FSEntry) :
    osWalkFiles directory (some (pruneUnreadable t))
      = (osWalkFiles directory (some t)).filter readOk := by
  cases t with
  | file n dt sz => rfl
  | dir n es =>
    simp only [pruneUnreadable, osWalkFiles, List.filter_append]
    rw [dirFiles_pruneList, walkList_pruneList]

/- ## Claim C1 (corrected): the global result cap, and the regex crash -/

/-- Claim C1, counterexample to the claim as stated: in regex mode the cap
property fails because the call can crash instead of returning a result
list.  On a root holding the three-line file `"a\nb\nc\n"`, the compiling
pattern `"c"` (its compiled matcher is literal search), context 3 and
`max_results = 1`, the matches present (one) reach the cap, yet the call
raises an uncaught `IndexError` — the match's line number, counted over the
doubled-newline `'\n'.join(readlines())` buffer, is 5, so the pre-context
window indexes `lines[3]` of a 3-line list — and no result list of length
`max_results` is returned. -/
theorem claim_C1_counterexample :
    1 ≤ regexTotalMatches (litFinditer true ['c']) []
        (osWalkFiles "/r" (some exC1crashTree))
  ∧ search_by_regex "/r" (some exC1crashTree) (.ok (litFinditer true ['c'])) [] 3 1
      = .error .indexError := by
  constructor
  · simp only [exC1crashTree, osWalkFiles, walkList, dirFiles]
    decide
  · simp only [search_by_regex, exC1crashTree, osWalkFiles, walkList, dirFiles]
    decide

/-- Claim C1, amended: in keyword and snippet modes, over any directory tree
and for any number of matches present, the result list has at most
`max_results` entries, and whenever at least `max_results` matches are
present exactly `max_results` results are returned with the traversal
stopping early (appending further files to the walk leaves the result
unchanged).  In regex mode the same holds of every call that returns at all
(with `max_results ≥ 1`, as the spec requires of requests): if the call
returns a result list `rs` rather than raising, then `rs` has at most
`max_results` entries, has exactly `max_results` entries whenever at least
that many pattern occurrences are present in the walked files, and is
unchanged by appending further files — but a regex call may instead abort
with an uncaught `IndexError` while building a pre-context window (see the
counterexample), in which case no result list is returned. -/
theorem claim_C1 (directory : String) (root : Option FSEntry)
    (keyword snippet : PyStr) (matcher : Matcher) (file_types : List String)
    (case_sensitive : Bool) (snippet_context max_results : Nat) :
    ((search_in_directory directory root keyword file_types case_sensitive
        snippet_context max_results).length ≤ max_results
      ∧ (max_results ≤ keywordTotalMatches keyword file_types case_sensitive
            snippet_context (osWalkFiles directory root) →
          (search_in_directory directory root keyword file_types case_sensitive
            snippet_context max_results).length = max_results
          ∧ ∀ extra, search_in_directory_go keyword file_types case_sensitive
                snippet_context max_results (osWalkFiles directory root ++ extra) []
              = search_in_directory directory root keyword file_types case_sensitive
                  snippet_context max_results))
  ∧ ((search_code_snippet directory root snippet file_types case_sensitive
        snippet_context max_results).length ≤ max_results
      ∧ (max_results ≤ snippetTotalMatches snippet file_types case_sensitive
            snippet_context (osWalkFiles directory root) →
          (search_code_snippet directory root snippet file_types case_sensitive
            snippet_context max_results).length = max_results
          ∧ ∀ extra, search_code_snippet_go snippet file_types case_sensitive
                snippet_context max_results (osWalkFiles directory root ++ extra) []
              = search_code_snippet directory root snippet file_types case_sensitive
                  snippet_context max_results))
  ∧ (∀ rs, 1 ≤ max_results →
      search_by_regex directory root (.ok matcher) file_types
          snippet_context max_results = .ok rs →
      rs.length ≤ max_results
      ∧ (max_results ≤ regexTotalMatches matcher file_types
            (osWalkFiles directory root) →
          rs.length = max_results
          ∧ ∀ extra, search_by_regex_go matcher file_types
                snippet_context max_results (osWalkFiles directory root ++ extra) []
              = .ok rs)) := by
  have hkw := search_in_directory_go_length keyword file_types case_sensitive
    snippet_context max_results (osWalkFiles directory root) [] (by simp)
  have hsn := search_code_snippet_go_length snippet file_types case_sensitive
    snippet_context max_results (osWalkFiles directory root) [] (by simp)
  simp only [List.length_nil, Nat.zero_add] at hkw hsn
  refine ⟨⟨?_, fun h => ⟨?_, fun extra => ?_⟩⟩,
          ⟨?_, fun h => ⟨?_, fun extra => ?_⟩⟩,
          fun rs hmax hok => ?_⟩
  · unfold search_in_directory
    rw [hkw]; omega
  · unfold search_in_directory
    rw [hkw]; omega
  · unfold search_in_directory
    exact search_in_directory_go_append keyword file_types case_sensitive
      snippet_context max_results (osWalkFiles directory root) extra []
      (by simp) (by simpa using h)
  · unfold search_code_snippet
    rw [hsn]; omega
  · unfold search_code_snippet
    rw [hsn]; omega
  · unfold search_code_snippet
    exact search_code_snippet_go_append snippet file_types case_sensitive
      snippet_context max_results (osWalkFiles directory root) extra []
      (by simp) (by simpa using h)
  · have hok' : search_by_regex_go matcher file_types snippet_context max_results
        (osWalkFiles directory root) [] = .ok rs := hok
    have hlen := search_by_regex_go_ok_length matcher file_types
      snippet_context max_results (osWalkFiles directory root) [] rs (by simp) hok'
    simp only [List.length_nil, Nat.zero_add] at hlen
    refine ⟨by omega, fun htot => ⟨by omega, fun extra => ?_⟩⟩
    exact search_by_regex_go_ok_append matcher file_types snippet_context
      max_results (osWalkFiles directory root) extra [] rs
      (by simpa using hmax) (by simpa using htot) hok'

/-- Claim C1, witness: on a flat root with two files holding four `"x"`
matches and `max_results = 3`, the keyword cap binds and exactly 3 results
come back; and a regex search over a one-line file that hits its cap of 1
without any out-of-range context returns exactly 1 result. -/
theorem claim_C1_witness :
    (3 ≤ keywordTotalMatches ['x'] [] true 0 (osWalkFiles "/r" (some exC1tree))
     ∧ (search_in_directory "/r" (some exC1tree) ['x'] [] true 0 3).length = 3)
  ∧ (1 ≤ regexTotalMatches (litFinditer true ['a']) []
        (osWalkFiles "/r" (some exC1okTree))
     ∧ exC1okResults.length = 1) := by
  have hkw : 3 ≤ keywordTotalMatches ['x'] [] true 0
      (osWalkFiles "/r" (some exC1tree)) := by
    simp only [exC1tree, osWalkFiles, walkList, dirFiles]
    decide
  have htot : 1 ≤ regexTotalMatches (litFinditer true ['a']) []
      (osWalkFiles "/r" (some exC1okTree)) := by
    simp only [exC1okTree, osWalkFiles, walkList, dirFiles]
    decide
  have hok : search_by_regex "/r" (some exC1okTree) (.ok (litFinditer true ['a']))
      [] 3 1 = .ok exC1okResults := by
    simp only [search_by_regex, exC1okTree, osWalkFiles, walkList, dirFiles]
    decide
  refine ⟨⟨hkw, ((claim_C1 "/r" (some exC1tree) ['x'] ['x']
    (litFinditer true ['x']) [] true 0 3).1.2 hkw).1⟩, htot, ?_⟩
  exact (((claim_C1 "/r" (some exC1okTree) ['x'] ['x'] (litFinditer true ['a'])
    [] true 3 1).2.2 exC1okResults (by decide) hok).2 htot).1

/- ## Claim C9 (confirmed): per-file read errors are skipped, never
fatal -/

/-- Claim C9: keyword and snippet search over a root return exactly the
matches of the same tree with every unreadable (permission or decode error)
file removed: failing files are skipped and the traversal continues, and the
functions return a plain result list — per-file errors cannot abort the
multi-file call.  (`max_results ≥ 1` as the spec requires of every request;
the keyword loop checks the cap after every file, readable or not.) -/
theorem claim_C9 (directory : String) (t : FSEntry) (keyword snippet : PyStr)
    (file_types : List String) (case_sensitive : Bool)
    (snippet_context max_results : Nat) (hmax : 1 ≤ max_results) :
    search_in_directory directory (some (pruneUnreadable t)) keyword file_types
        case_sensitive snippet_context max_results
      = search_in_directory directory (some t) keyword file_types
          case_sensitive snippet_context max_results
  ∧ search_code_snippet directory (some (pruneUnreadable t)) snippet file_types
        case_sensitive snippet_context max_results
      = search_code_snippet directory (some t) snippet file_types
          case_sensitive snippet_context max_results := by
  constructor
  · unfold search_in_directory
    rw [osWalkFiles_prune]
    exact search_in_directory_go_filter keyword file_types case_sensitive
      snippet_context max_results (osWalkFiles directory (some t)) []
      (by simpa using hmax)
  · unfold search_code_snippet
    rw [osWalkFiles_prune]
    exact search_code_snippet_go_filter snippet file_types case_sensitive
      snippet_context max_results (osWalkFiles directory (some t)) []

/-- Claim C9, witness: a root with one unreadable file and one readable match
returns exactly what the pruned (readable-only) tree returns. -/
theorem claim_C9_witness :
    1 ≤ 100
  ∧ (search_in_directory "/r" (some (pruneUnreadable exC9tree)) ['h', 'i'] []
        false 3 100
      = search_in_directory "/r" (some exC9tree) ['h', 'i'] [] false 3 100
     ∧ search_code_snippet "/r" (some (pruneUnreadable exC9tree)) ['h', 'i'] []
        false 3 100
      = search_code_snippet "/r" (some exC9tree) ['h', 'i'] [] false 3 100) :=
  ⟨by decide, claim_C9 "/r" exC9tree ['h', 'i'] ['h', 'i'] [] false 3 100 (by decide)⟩

end CodeSearch
